import Mathlib

/-!
# Verification development for `src/index.js`

A shallow embedding of the retrying request executor (`requestWithRetry`), the
account session operations (`fetchUserInfo`, `getPublicIP`, `fetchTasks`,
`completeTask`, `fetchStatistics`) and the orchestrator (`processAccount`,
`runCycle`).

Modelling conventions.

* The outside world is an explicit state `World` holding the chronological
  list of events: HTTP calls issued through `axios`, timer waits, and two
  control-flow markers recording that `completeTask` or `processAccount` was
  entered. Asynchronous code is sequential (`await` at every step), so it is
  embedded as state passing.
* The HTTP peer is an arbitrary function `Env` of the events so far and of the
  call being made; it answers either with a decoded body or with an error.
* The numbers the program computes with (timer values and backoff) are IEEE
  binary64 doubles, embedded as `JsNum` with round-to-nearest, ties-to-even
  arithmetic; numbers inside decoded JSON are only compared and printed, and
  are embedded as integers. Exceptions are explicit `Except` results.
* Console output (logger, spinners, progress bar, table) has no effect on
  control flow and is left out; the random user agent header and the random
  request payloads are left out of the recorded request as well.
-/

namespace Vibe

/-! ## JavaScript values -/

/-- Decoded JSON values, together with `undefined`. -/
inductive JVal where
  | undefined : JVal
  | null : JVal
  | bool (b : Bool) : JVal
  | num (n : Int) : JVal
  | str (s : String) : JVal
  | arr (xs : List JVal) : JVal
  | obj (fields : List (String × JVal)) : JVal

/-- An exception object: `error.message` and `error.response?.status`. -/
structure JsError where
  message : String
  status : Option Nat
deriving DecidableEq, Repr

/-- Message of a `TypeError`; its wording is engine specific. -/
def typeErrorMessage : String := "TypeError"

/-- A `TypeError` raised by the language itself (no `response` attached). -/
def typeError : JsError := { message := typeErrorMessage, status := none }

/-- Truthiness (`ToBoolean`). -/
def JVal.truthy : JVal → Bool
  | .undefined => false
  | .null => false
  | .bool b => b
  | .num n => n != 0
  | .str s => s != ""
  | .arr _ => true
  | .obj _ => true

/-- The values `undefined` and `null`. -/
def JVal.nullish : JVal → Bool
  | .undefined => true
  | .null => true
  | _ => false

/-- Lookup of an own property in the field list of an object. -/
def lookupField (key : String) : List (String × JVal) → JVal
  | [] => .undefined
  | (k, v) :: rest => if k = key then v else lookupField key rest

/-- The value of `v.key` for a `v` that is neither `undefined` nor `null` and
a data key read by the program (none of them is a prototype property): the own
property of an object, `undefined` on every other value. -/
def JVal.prop (v : JVal) (key : String) : JVal :=
  match v with
  | .obj fields => lookupField key fields
  | _ => .undefined

/-- Property read `v.key`: a `TypeError` on `undefined` and `null`. -/
def JVal.get (v : JVal) (key : String) : Except JsError JVal :=
  if v.nullish then .error typeError else .ok (v.prop key)

/-- Optional chaining `v?.key`. -/
def JVal.getOpt (v : JVal) (key : String) : JVal :=
  if v.nullish then .undefined else v.prop key

/-- The expression `a || b`. -/
def JVal.orElse (a b : JVal) : JVal := if a.truthy then a else b

/-- Strict equality `v === s` with a string `s`. -/
def JVal.isStr (v : JVal) (s : String) : Bool :=
  match v with
  | .str t => t == s
  | _ => false

/-- The test `SameValueZero(x, y)` used by `Array.prototype.includes`:
primitives are compared by value, arrays and objects by reference, and two
decoded values never share a reference. -/
def sameValueZero : JVal → JVal → Bool
  | .undefined, .undefined => true
  | .null, .null => true
  | .bool a, .bool b => a == b
  | .num a, .num b => a == b
  | .str a, .str b => a == b
  | _, _ => false

/-- The method `Array.prototype.includes`. -/
def arrayIncludes (xs : List JVal) (v : JVal) : Bool := xs.any (fun x => sameValueZero x v)

mutual
/-- String conversion (`ToString`), as done by template literals. -/
def toJsString : JVal → String
  | .undefined => "undefined"
  | .null => "null"
  | .bool b => if b then "true" else "false"
  | .num n => toString n
  | .str s => s
  | .arr xs => joinJs xs
  | .obj _ => "[object Object]"
termination_by structural v => v
/-- The method `Array.prototype.join` with the separator `,`. -/
def joinJs : List JVal → String
  | [] => ""
  | x :: rest =>
    (match x with
      | .undefined => ""
      | .null => ""
      | v => toJsString v) ++ (match rest with | [] => "" | _ :: _ => "," ++ joinJs rest)
termination_by structural l => l
end

/-- The method `String.prototype.toLowerCase`, on the ASCII letters; no other
character is lower-cased to a letter of `get`, `post` or `y`, the strings the
program compares the result with. -/
def toLowerCase (s : String) : String := ⟨s.data.map Char.toLower⟩

/-- Test whether `pat` is a prefix of the character list `l`. -/
def isPrefixChars : List Char → List Char → Bool
  | [], _ => true
  | _ :: _, [] => false
  | p :: ps, c :: cs => p == c && isPrefixChars ps cs

/-- Test whether `pat` occurs in the character list `l`. -/
def containsChars (pat : List Char) : List Char → Bool
  | [] => isPrefixChars pat []
  | c :: cs => isPrefixChars pat (c :: cs) || containsChars pat cs

/-- The method `String.prototype.includes`. -/
def strIncludes (s pat : String) : Bool := containsChars pat.data s.data

/-! ## Numbers -/

/-- A JavaScript number (IEEE binary64). A finite double is a whole number of
units of `2 ^ (-1074)`, the smallest positive double: `fin units` is the double
`units * 2 ^ (-1074)`, where the absolute value of `units` is below `2 ^ 53`
or is `m * 2 ^ u` with `2 ^ 52 ≤ m < 2 ^ 53` and `u ≤ 971`.
The two zeros are one value, `fin 0`: the program never divides by a computed
number, the only place where they differ. -/
inductive JsNum where
  | nan : JsNum
  | inf (negative : Bool) : JsNum
  | fin (units : Int) : JsNum
deriving DecidableEq, Repr

/-- The multiple of `b` nearest to `a`, as a number of `b`s; a tie goes to
the even one. -/
def roundHalfEven (a b : Nat) : Nat :=
  if 2 * (a % b) < b then a / b
  else if b < 2 * (a % b) then a / b + 1
  else if (a / b) % 2 = 0 then a / b
  else a / b + 1

/-- Binary search for the position of the leading bit of `x`: the largest `e`
with `lo ≤ e < lo + 2 ^ fuel` and `2 ^ e ≤ x`, and `lo` when there is none. -/
def log2From : Nat → Nat → Nat → Nat
  | 0, lo, _ => lo
  | fuel + 1, lo, x =>
    if 2 ^ (lo + 2 ^ fuel) ≤ x then log2From fuel (lo + 2 ^ fuel) x else log2From fuel lo x

/-- The position of the leading bit of `x`, for `0 < x < 2 ^ 4096` (every
finite double is below `2 ^ 2098` units): the `e` with `2 ^ e ≤ x < 2 ^ (e + 1)`. -/
def floorLog2 (x : Nat) : Nat := log2From 12 0 x

/-- Rounding of the exact value `a / b` units (`0 < b`) to the nearest number of
units with a significand of 53 bits, ties to even: a value of at least `2 ^ 53`
units, of bit length `53 + u`, is rounded to a multiple of `2 ^ u` units; a
smaller one is rounded to a whole number of units. -/
def roundUnits (a b : Nat) : Nat :=
  roundHalfEven a (b * 2 ^ (floorLog2 (a / b) - 52)) * 2 ^ (floorLog2 (a / b) - 52)

/-- The double nearest to `x * p / q`, for positive integers `p` and `q`. It is
the result of `x * c` for the double `c = p / q` and of `x / c` for the double
`c = q / p`: both operations return the exact result rounded to nearest, ties to
even, and a magnitude that rounds to `2 ^ 1024` or more is an infinity. -/
def JsNum.scale : JsNum → Nat → Nat → JsNum
  | .nan, _, _ => .nan
  | .inf negative, _, _ => .inf negative
  | .fin units, p, q =>
    if roundUnits (units.natAbs * p) q < 2 ^ 2098 then
      .fin (if units < 0 then -(roundUnits (units.natAbs * p) q : Int)
        else (roundUnits (units.natAbs * p) q : Int))
    else .inf (decide (units < 0))

/-- The value of a decimal integer literal: the double nearest to it. -/
def JsNum.ofNat (k : Nat) : JsNum :=
  if roundUnits (k * 2 ^ 1074) 1 < 2 ^ 2098 then .fin (roundUnits (k * 2 ^ 1074) 1)
  else .inf false

instance (k : Nat) : OfNat JsNum k := ⟨JsNum.ofNat k⟩

/-! ## Tasks -/

/-- A task as built by `fetchTasks`: the fields copied from the catalog entry
and the computed `status`. -/
structure Task where
  id : JVal
  name : JVal
  description : JVal
  category : JVal
  credits_reward : JVal
  is_daily : JVal
  is_one_time : JVal
  status : String

/-! ## The world: events and the HTTP peer -/

/-- Transport chosen by `newAgent`. -/
inductive Agent where
  | httpsProxy (url : String) : Agent
  | socksProxy (url : String) : Agent
deriving DecidableEq, Repr

/-- The request configuration built by `getAxiosConfig`: the authorization
header (global headers only), the timeout, the proxy transport and whether
`config.proxy = false` was set. -/
structure AxiosConfig where
  authorization : Option String
  timeout : Nat
  httpsAgent : Option Agent
  proxyOff : Bool
deriving DecidableEq, Repr

/-- Events, in the order in which they happen: an HTTP call through `axios`,
a timer wait, and the markers of control entering `completeTask` and
`processAccount` (with the arguments of the call). -/
inductive Event where
  | request (method url : String) (config : AxiosConfig) : Event
  | wait (ms : JsNum) : Event
  | enterCompleteTask (task : Task) : Event
  | enterProcessAccount (token : String) (index total : Nat) (proxy : Option String) : Event

/-- The state of the outside world: what has happened so far. -/
structure World where
  trace : List Event

/-- The HTTP peer: given the events so far and the call being made
(which of `axios.get` and `axios.post`, url, configuration), the decoded body
of a 2xx answer or the error `axios` rejects with. -/
def Env : Type := List Event → String → String → AxiosConfig → Except JsError JVal

/-- Record one event. -/
def World.emit (w : World) (e : Event) : World := { trace := w.trace ++ [e] }

/-- The function `delay(seconds)`: a timer of `seconds * 1000` milliseconds. -/
def delay (seconds : JsNum) (w : World) : World := w.emit (.wait (seconds.scale 1000 1))

/-- One call `axios.get(url, config)` or `axios.post(url, payload, config)`. -/
def axiosCall (env : Env) (verb url : String) (config : AxiosConfig) (w : World) :
    World × Except JsError JVal :=
  (w.emit (.request verb url config), env w.trace verb url config)

/-! ## Request configuration -/

/-- The function `newAgent(proxy)`; the agent constructors are taken to accept
the proxy string. -/
def newAgent (proxy : String) : Option Agent :=
  if "http://".isPrefixOf proxy || "https://".isPrefixOf proxy then
    some (.httpsProxy proxy)
  else if "socks4://".isPrefixOf proxy || "socks5://".isPrefixOf proxy then
    some (.socksProxy proxy)
  else
    none

/-- The function `getAxiosConfig(proxy, token, useGlobalHeaders)`; `none` is
`null`, and a proxy string is truthy when it is not empty. -/
def getAxiosConfig (proxy : Option String) (token : Option String)
    (useGlobalHeaders : Bool) : AxiosConfig :=
  let authorization :=
    if useGlobalHeaders then some ("Bearer " ++ token.getD "null") else none
  match proxy with
  | some p =>
    if p != "" then
      { authorization := authorization, timeout := 60000, httpsAgent := newAgent p,
        proxyOff := true }
    else
      { authorization := authorization, timeout := 60000, httpsAgent := none,
        proxyOff := false }
  | none =>
    { authorization := authorization, timeout := 60000, httpsAgent := none,
      proxyOff := false }

/-! ## The retrying request executor -/

/-- The value `requestWithRetry` resolves to: `{success: true, response}` or
`{success: false, message, status}`. -/
inductive RequestOutcome where
  | success (response : JVal) : RequestOutcome
  | failure (message : String) (status : Option Nat) : RequestOutcome

/-- The body of the `try` block of `requestWithRetry`: one attempt. -/
def attempt (env : Env) (method url : String) (config : AxiosConfig) (w : World) :
    World × Except JsError JVal :=
  if toLowerCase method = "get" then
    axiosCall env "get" url config w
  else if toLowerCase method = "post" then
    axiosCall env "post" url config w
  else
    (w, .error { message := "Method " ++ method ++ " not supported", status := none })

/-- The `for` loop of `requestWithRetry`, entered with loop variable `i` and
the current `backoff`: `backoff.scale 1 1000` is `backoff / 1000` and
`backoff.scale 3 2` is `backoff * 1.5`, the double `1.5` being exactly `3 / 2`.
The bound `fuel` is the number of iterations still allowed to run
(`retries - i` is enough). The result `none` is `undefined`: the loop ended
without a `return`. -/
def requestWithRetryFrom (env : Env) (method url : String) (config : AxiosConfig)
    (retries : Nat) : Nat → Nat → JsNum → World → World × Option RequestOutcome
  | 0, _, _, w => (w, none)
  | fuel + 1, i, backoff, w =>
    if i < retries then
      match attempt env method url config w with
      | (w1, .ok data) => (w1, some (.success data))
      | (w1, .error error) =>
        if i < retries - 1 then
          requestWithRetryFrom env method url config retries fuel (i + 1)
            (backoff.scale 3 2) (delay (backoff.scale 1 1000) w1)
        else if error.status = some 404 then
          (w1, some (.failure "Task endpoint not found" (some 404)))
        else
          (w1, some (.failure error.message error.status))
    else
      (w, none)

/-- The function `requestWithRetry(method, url, payload, config, retries, backoff)`. -/
def requestWithRetry (env : Env) (method url : String) (config : AxiosConfig)
    (retries : Nat) (backoff : JsNum) (w : World) : World × Option RequestOutcome :=
  requestWithRetryFrom env method url config retries retries 0 backoff w

/-! ## Account session operations -/

/-- Endpoint of the social profiles. -/
def profilesUrl : String := "https://api.cryptal.ai/apis/v2/auth/social-profiles"
/-- Endpoint of the IP lookup. -/
def ipifyUrl : String := "https://api.ipify.org?format=json"
/-- Endpoint of the task catalog. -/
def tasksUrl : String := "https://api.cryptal.ai/apis/v2/vibe-credit/tasks?take=100&skip=0"
/-- Endpoint of the tasks available to the user. -/
def userAvailableUrl : String :=
  "https://api.cryptal.ai/apis/v2/vibe-credit/tasks/user-available?take=100&skip=0"
/-- Endpoint of the statistics. -/
def statsUrl : String := "https://api.cryptal.ai/apis/v2/vibe-credit"

/-- The fallback user name `Token_<first 8 characters>...`. -/
def tokenName (token : String) : JVal := .str ("Token_" ++ token.take 8 ++ "...")

/-- The function `fetchUserInfo(token, proxy, context)`; the result is the
`username`. Every exception is caught and gives the fallback name. -/
def fetchUserInfo (env : Env) (token : String) (proxy : Option String) (w : World) :
    World × JVal :=
  match requestWithRetry env "get" profilesUrl (getAxiosConfig proxy (some token) true)
      3 2000 w with
  | (w1, some (.success body)) =>
    if !body.truthy then (w1, tokenName token)
    else
      match body.get "response" with
      | .error _ => (w1, tokenName token)
      | .ok (.arr (first :: _)) =>
        match first.get "display_name" with
        | .error _ => (w1, tokenName token)
        | .ok displayName => (w1, displayName.orElse (tokenName token))
      | .ok _ => (w1, tokenName token)
  | (w1, _) => (w1, tokenName token)

/-- The function `getPublicIP(proxy, context)`. On a failure outcome
`response.response` is `undefined` and reading `.ip` raises, which is caught. -/
def getPublicIP (env : Env) (proxy : Option String) (w : World) : World × JVal :=
  match requestWithRetry env "get" ipifyUrl (getAxiosConfig proxy none false) 3 2000 w with
  | (w1, some (.success body)) =>
    match body.get "ip" with
    | .error _ => (w1, .str "Error retrieving IP")
    | .ok ip => (w1, ip.orElse (.str "Unknown"))
  | (w1, _) => (w1, .str "Error retrieving IP")

/-- The guard of `fetchTasks` on an outcome `r` and the value read after it:
`!r.success || !r.response || !r.response.response || !r.response.response.data`
raises `new Error(failMessage)`, otherwise the value is `r.response.response.data`. -/
def responseData (outcome : Option RequestOutcome) (failMessage : String) :
    Except JsError JVal :=
  match outcome with
  | none => .error typeError
  | some (.failure _ _) => .error { message := failMessage, status := none }
  | some (.success body) =>
    if !body.truthy then .error { message := failMessage, status := none }
    else
      match body.get "response" with
      | .error e => .error e
      | .ok inner =>
        if !inner.truthy then .error { message := failMessage, status := none }
        else
          match inner.get "data" with
          | .error e => .error e
          | .ok data =>
            if !data.truthy then .error { message := failMessage, status := none }
            else .ok data

/-- The call `data.map(task => task.id)` on the elements of an array. -/
def mapIds : List JVal → Except JsError (List JVal)
  | [] => .ok []
  | task :: rest =>
    match task.get "id" with
    | .error e => .error e
    | .ok id =>
      match mapIds rest with
      | .error e => .error e
      | .ok ids => .ok (id :: ids)

/-- The call `allTasks.filter(task => task.task_type !== 'invite_friend' &&
task.task_type !== 'share_post')` on the elements of an array. -/
def filterTasks : List JVal → Except JsError (List JVal)
  | [] => .ok []
  | task :: rest =>
    match task.get "task_type" with
    | .error e => .error e
    | .ok taskType =>
      match filterTasks rest with
      | .error e => .error e
      | .ok kept =>
        if !taskType.isStr "invite_friend" && !taskType.isStr "share_post" then
          .ok (task :: kept)
        else .ok kept

/-- The object built by the callback of the `.map` of `fetchTasks`. -/
def mkTask (userAvailableTasks : List JVal) (task : JVal) : Task :=
  { id := task.prop "id"
    name := task.prop "task_name"
    description := task.prop "task_description"
    category := task.prop "task_type"
    credits_reward := task.prop "credits_reward"
    is_daily := task.prop "is_daily"
    is_one_time := task.prop "is_one_time"
    status :=
      if arrayIncludes userAvailableTasks (task.prop "id") then "pending" else "completed" }

/-- The callback of the `.map` of `fetchTasks`: reading a property of
`undefined` or `null` raises. -/
def toTask (userAvailableTasks : List JVal) (task : JVal) : Except JsError Task :=
  if task.nullish then .error typeError else .ok (mkTask userAvailableTasks task)

/-- The `.map` of `fetchTasks` on the elements that passed the filter. -/
def mapTasks (userAvailableTasks : List JVal) : List JVal → Except JsError (List Task)
  | [] => .ok []
  | task :: rest =>
    match toTask userAvailableTasks task with
    | .error e => .error e
    | .ok t =>
      match mapTasks userAvailableTasks rest with
      | .error e => .error e
      | .ok ts => .ok (t :: ts)

/-- Lines 239 to 251 of `fetchTasks`: the ids of the user-available data, then
filter and map of the catalog data. Calling `.map` or `.filter` on a value
that is not an array raises a `TypeError`. -/
def buildTasks (allTasks userAvailable : JVal) : Except JsError (List Task) :=
  match userAvailable with
  | .arr available =>
    match mapIds available with
    | .error e => .error e
    | .ok userAvailableTasks =>
      match allTasks with
      | .arr all =>
        match filterTasks all with
        | .error e => .error e
        | .ok kept => mapTasks userAvailableTasks kept
      | _ => .error typeError
  | _ => .error typeError

/-- What `fetchTasks` returns: the task array, or `{error: message}`. -/
inductive FetchTasksResult where
  | tasks (list : List Task) : FetchTasksResult
  | error (message : String) : FetchTasksResult

/-- The function `fetchTasks(token, proxy, context)`. -/
def fetchTasks (env : Env) (token : String) (proxy : Option String) (w : World) :
    World × FetchTasksResult :=
  match requestWithRetry env "get" tasksUrl (getAxiosConfig proxy (some token) true)
      3 2000 w with
  | (w1, allTasksResponse) =>
    match responseData allTasksResponse "Failed to fetch full task list" with
    | .error e => (w1, .error ("Failed: " ++ e.message))
    | .ok allTasks =>
      match requestWithRetry env "get" userAvailableUrl
          (getAxiosConfig proxy (some token) true) 3 2000 w1 with
      | (w2, userAvailableResponse) =>
        match responseData userAvailableResponse "Failed to fetch user-available tasks" with
        | .error e => (w2, .error ("Failed: " ++ e.message))
        | .ok userAvailable =>
          match buildTasks allTasks userAvailable with
          | .error e => (w2, .error ("Failed: " ++ e.message))
          | .ok tasks => (w2, .tasks tasks)

/-- What `completeTask` returns: `{success, message}`. -/
structure CompleteResult where
  success : Bool
  message : String
deriving DecidableEq, Repr

/-- Whether `v.slice` is a function: strings and arrays. -/
def sliceable : JVal → Bool
  | .str _ => true
  | .arr _ => true
  | _ => false

/-- The `switch (task.category)` of `completeTask`: method and url of the
request of each `case`, `none` for the `default` branch. -/
def endpointOf (category : JVal) : Option (String × String) :=
  if category.isStr "daily_login" then
    some ("get", "https://api.cryptal.ai/apis/v2/vibe-credit/tasks/daily-login")
  else if category.isStr "follow_cryptal" then
    some ("get", "https://api.cryptal.ai/apis/v2/vibe-credit/tasks/follow-cryptal")
  else if category.isStr "join_discord" then
    some ("get", "https://api.cryptal.ai/apis/v2/vibe-credit/tasks/follow-discord")
  else if category.isStr "join_waitlist" then
    some ("post", "https://api.cryptal.ai/apis/v2/vibe-credit/tasks/waitlist")
  else if category.isStr "submit_feedback" then
    some ("post", "https://api.cryptal.ai/apis/v2/vibe-credit/tasks/feedback")
  else
    none

/-- The expression `message?.includes('already completed')`: `undefined` on
`undefined` and `null`, the substring test on a string, the element test on an
array, and a `TypeError` on every other value (`includes` is not a function). -/
def includesAlreadyCompleted : JVal → Except JsError JVal
  | .undefined => .ok .undefined
  | .null => .ok .undefined
  | .str s => .ok (.bool (strIncludes s "already completed"))
  | .arr xs => .ok (.bool (arrayIncludes xs (.str "already completed")))
  | _ => .error typeError

/-- Lines 290 to 304 of `completeTask`: the result computed from the outcome
of the request, inside the `try`. -/
def verdict (task : Task) (response : Option RequestOutcome) :
    Except JsError CompleteResult :=
  match response with
  | none => .error typeError
  | some (.success body) =>
    if (body.getOpt "success").truthy then
      .ok { success := true
            message := "Task \"" ++ toJsString task.name ++ "\" completed or already completed" }
    else
      match includesAlreadyCompleted (body.getOpt "message") with
      | .error e => .error e
      | .ok included =>
        if included.truthy then
          .ok { success := true
                message :=
                  "Task \"" ++ toJsString task.name ++ "\" completed or already completed" }
        else
          .ok { success := false
                message := "Failed: " ++
                  toJsString ((body.getOpt "message").orElse (.str "Unknown error")) }
  | some (.failure message status) =>
    if status = some 404 then
      .ok { success := false, message := "Skipped: Task endpoint not found" }
    else
      .ok { success := false
            message := "Failed: " ++ (if message != "" then message else "Unknown error") }

/-- The function `completeTask(token, task, proxy, context)`. The first
statement, `task.id.slice(-6)`, is outside the `try` and raises to the caller
when `task.id` has no `slice`; every exception after it is caught. -/
def completeTask (env : Env) (token : String) (task : Task) (proxy : Option String)
    (w : World) : World × Except JsError CompleteResult :=
  let w0 := w.emit (.enterCompleteTask task)
  if !sliceable task.id then (w0, .error typeError)
  else
    match endpointOf task.category with
    | none =>
      (w0, .ok { success := false
                 message := "Skipped: " ++ toJsString task.category ++ " not supported" })
    | some (method, url) =>
      match requestWithRetry env method url (getAxiosConfig proxy (some token) true)
          3 2000 w0 with
      | (w1, response) =>
        match verdict task response with
        | .ok result => (w1, .ok result)
        | .error e =>
          (w1, .ok { success := false, message := "Failed to verify: " ++ e.message })

/-- What `fetchStatistics` returns: `{totalCredits, leaderboardRank}` or
`{error: message}`. -/
inductive StatsResult where
  | stats (totalCredits leaderboardRank : JVal) : StatsResult
  | error (message : String) : StatsResult

/-- The function `fetchStatistics(token, proxy, context)`. -/
def fetchStatistics (env : Env) (token : String) (proxy : Option String) (w : World) :
    World × StatsResult :=
  match requestWithRetry env "get" statsUrl (getAxiosConfig proxy (some token) true)
      3 2000 w with
  | (w1, none) => (w1, .error ("Failed: " ++ typeErrorMessage))
  | (w1, some (.failure _ _)) => (w1, .error "Failed: Failed to fetch statistics")
  | (w1, some (.success body)) =>
    if !body.truthy then (w1, .error "Failed: Failed to fetch statistics")
    else
      match body.get "response" with
      | .error e => (w1, .error ("Failed: " ++ e.message))
      | .ok data =>
        if !data.truthy then (w1, .error "Failed: Failed to fetch statistics")
        else
          match data.get "total_credits", data.get "leaderboard_rank" with
          | .ok totalCredits, .ok leaderboardRank =>
            (w1, .stats (totalCredits.orElse (.str "N/A"))
              (leaderboardRank.orElse (.str "N/A")))
          | .error e, _ => (w1, .error ("Failed: " ++ e.message))
          | _, .error e => (w1, .error ("Failed: " ++ e.message))

/-! ## The orchestrator -/

/-- The local state of the task loop of `processAccount` after one task: the
task (its `status` possibly set to `completed`) and the two counters. -/
structure TaskStep where
  task : Task
  completedTasks : Nat
  skippedTasks : Nat

/-- The `try` block of one iteration of the task loop (lines 360 to 372); an
exception raised by `completeTask` is caught and changes nothing. -/
def taskStep (env : Env) (token : String) (proxy : Option String) (task : Task)
    (completedTasks skippedTasks : Nat) (w : World) : World × TaskStep :=
  if task.status = "pending" then
    match completeTask env token task proxy w with
    | (w1, .ok result) =>
      if result.success then
        (w1, { task := { task with status := "completed" }
               completedTasks := completedTasks + 1, skippedTasks := skippedTasks })
      else if strIncludes result.message "Skipped" then
        (w1, { task := task, completedTasks := completedTasks
               skippedTasks := skippedTasks + 1 })
      else
        (w1, { task := task, completedTasks := completedTasks, skippedTasks := skippedTasks })
    | (w1, .error _) =>
      (w1, { task := task, completedTasks := completedTasks, skippedTasks := skippedTasks })
  else
    (w, { task := task, completedTasks := completedTasks, skippedTasks := skippedTasks })

/-- The loop `for (const task of tasks)` of `processAccount` (lines 359 to
375), entered with the two counters; the result holds the tasks after the loop
and the final counters. Each iteration ends with `delay(2)`. -/
def taskLoop (env : Env) (token : String) (proxy : Option String) :
    List Task → Nat → Nat → World → World × List Task × Nat × Nat
  | [], completedTasks, skippedTasks, w => (w, [], completedTasks, skippedTasks)
  | task :: rest, completedTasks, skippedTasks, w =>
    match taskStep env token proxy task completedTasks skippedTasks w with
    | (w1, step) =>
      match taskLoop env token proxy rest step.completedTasks step.skippedTasks
          (delay 2 w1) with
      | (w2, rest', completed', skipped') => (w2, step.task :: rest', completed', skipped')

/-- The function `formatTaskTable(tasks, context)`: a one second timer and
console output. -/
def formatTaskTable (w : World) : World := w.emit (.wait 1000)

/-- The function `processAccount(token, index, total, proxy)`. -/
def processAccount (env : Env) (token : String) (index total : Nat)
    (proxy : Option String) (w : World) : World :=
  let w0 := w.emit (.enterProcessAccount token index total proxy)
  match fetchUserInfo env token proxy w0 with
  | (w1, _) =>
    match getPublicIP env proxy w1 with
    | (w2, _) =>
      match fetchTasks env token proxy w2 with
      | (w3, .error _) => w3
      | (w3, .tasks tasks) =>
        let w4 :=
          if tasks.length = 0 then w3
          else
            match taskLoop env token proxy tasks 0 0 w3 with
            | (w', _, _, _) => formatTaskTable w'
        (fetchStatistics env token proxy w4).1

/-- The globals `globalUseProxy` and `globalProxies`. -/
structure Config where
  globalUseProxy : Bool
  globalProxies : List String
deriving DecidableEq, Repr

/-- The function `initializeConfig()`, from the answer typed at the prompt and
the list `readProxies()` returns; the globals start as `false` and `[]`, and
`trim` removes the leading and trailing white space. -/
def initializeConfig (useProxyAns : String) (proxies : List String) : Config :=
  if toLowerCase useProxyAns.trim = "y" then
    if proxies.length = 0 then { globalUseProxy := false, globalProxies := proxies }
    else { globalUseProxy := true, globalProxies := proxies }
  else
    { globalUseProxy := false, globalProxies := [] }

/-- Line 428 of `runCycle`: the proxy of account `i`,
`globalUseProxy ? globalProxies[i % globalProxies.length] : null`; `none` is
`null`, and `undefined` for an index outside the array. -/
def proxyFor (config : Config) (i : Nat) : Option String :=
  if config.globalUseProxy then
    config.globalProxies[i % config.globalProxies.length]?
  else
    none

/-- The loop `for (let i = 0; i < tokens.length; i++)` of `runCycle`, entered
with loop variable `i`; `fuel` bounds the iterations still to run. Each
iteration ends with `delay(5)`. -/
def runCycleFrom (env : Env) (config : Config) (tokens : List String) :
    Nat → Nat → World → World
  | 0, _, w => w
  | fuel + 1, i, w =>
    if h : i < tokens.length then
      runCycleFrom env config tokens fuel (i + 1)
        (delay 5 (processAccount env (tokens.get ⟨i, h⟩) i tokens.length (proxyFor config i) w))
    else
      w

/-- The function `runCycle()`, from the list `readTokens()` returns. -/
def runCycle (env : Env) (config : Config) (tokens : List String) (w : World) : World :=
  if tokens.length = 0 then w
  else runCycleFrom env config tokens tokens.length 0 w

/-! ## Notions used to state the properties -/

/-- Whether an event is an HTTP call. -/
def Event.isRequest : Event → Bool
  | .request _ _ _ => true
  | _ => false

/-- The duration of a wait, in milliseconds: the value handed to `setTimeout`. -/
def Event.waitMs : Event → Option JsNum
  | .wait ms => some ms
  | _ => none

/-- Number of HTTP calls among the events. -/
def requestCount (events : List Event) : Nat := events.countP Event.isRequest

/-- The waits among the events, in order, in milliseconds. -/
def waitsOf (events : List Event) : List JsNum := events.filterMap Event.waitMs

/-- The timer value of `delay(b / 1000)`, that is `(b / 1000) * 1000`, each of
the two operations rounding to a double. -/
def timerOf (b : JsNum) : JsNum := (b.scale 1 1000).scale 1000 1

/-- The backoff after `backoff *= 1.5`. -/
def nextBackoff (b : JsNum) : JsNum := b.scale 3 2

/-- The wait number `k` (from 0) of a run entered with backoff `b`: the timer
value of the backoff multiplied `k` times by `1.5`. -/
def waitAt (b : JsNum) (k : Nat) : JsNum := timerOf (nextBackoff^[k] b)

/-- The events of `k` failed attempts that are retried: each attempt `req` is
followed by a wait, the first for the backoff `b` and each later one for the
backoff of the one before multiplied by `1.5`. -/
def retryEvents (req : Event) : Nat → JsNum → List Event
  | 0, _ => []
  | k + 1, b => req :: Event.wait (timerOf b) :: retryEvents req k (nextBackoff b)

/-- The waits of `k` retried iterations that made no HTTP call. -/
def backoffWaits : Nat → JsNum → List Event
  | 0, _ => []
  | k + 1, b => Event.wait (timerOf b) :: backoffWaits k (nextBackoff b)

/-- The comparison `x < y` of two numbers. -/
def JsNum.lt : JsNum → JsNum → Bool
  | .nan, _ => false
  | _, .nan => false
  | .inf a, .inf b => a && !b
  | .inf a, .fin _ => a
  | .fin _, .inf b => !b
  | .fin a, .fin b => decide (a < b)

/-- The comparison `x <= y` of two numbers. -/
def JsNum.le : JsNum → JsNum → Bool
  | .nan, _ => false
  | _, .nan => false
  | .inf a, .inf b => a || !b
  | .inf a, .fin _ => a
  | .fin _, .inf b => !b
  | .fin a, .fin b => decide (a ≤ b)

/-- A number that is not negative: `+Infinity` or a finite number of at least
zero units. -/
def JsNum.Nonneg (x : JsNum) : Prop := x = .inf false ∨ ∃ n : Nat, x = .fin n

/-- Whether the finite number `y` is at least `1.5` times the finite number
`x`, compared exactly. -/
def JsNum.atLeastOneAndAHalfTimes : JsNum → JsNum → Bool
  | .fin a, .fin b => decide (3 * a ≤ 2 * b)
  | _, _ => false

/-- The outcome returned when the final attempt failed with `error`. -/
def failureOf (error : JsError) : RequestOutcome :=
  if error.status = some 404 then .failure "Task endpoint not found" (some 404)
  else .failure error.message error.status

/-- The answer of the peer to attempt number `k` (from 0) of a run of
`requestWithRetry` started in world `w`, the attempts before it having failed. -/
def answerAt (env : Env) (w : World) (verb url : String) (config : AxiosConfig)
    (backoff : JsNum) (k : Nat) : Except JsError JVal :=
  env (w.trace ++ retryEvents (.request verb url config) k backoff) verb url config

/-- Values compared by value by `includes`: everything but arrays and objects. -/
def JVal.isPrimitive : JVal → Bool
  | .arr _ => false
  | .obj _ => false
  | _ => true

/-- Membership of the value `v` in the set of `ids`, as JavaScript decides it
(`Array.prototype.includes`, `Set.prototype.has`): a string, number, boolean,
`null` or `undefined` is a member when it is equal to one of the ids; an array
or object is a member only as the same reference, and a value decoded from the
catalog response is never the same reference as one decoded from the
user-available response. -/
def InIdSet (ids : List JVal) (v : JVal) : Prop := v.isPrimitive = true ∧ v ∈ ids

/-- The ids of the user-available data: `data.map(task => task.id)`. -/
def idsOf (available : List JVal) : List JVal := available.map (fun x => x.prop "id")

/-- The test of the `.filter` of `fetchTasks` on a catalog entry: its
`task_type` is neither `invite_friend` nor `share_post`. -/
def keptCategory (entry : JVal) : Bool :=
  !(entry.prop "task_type").isStr "invite_friend" && !(entry.prop "task_type").isStr "share_post"

/-- The task `t` carries the fields of the catalog entry `entry`. -/
def IsEntryOf (entry : JVal) (t : Task) : Prop :=
  t.id = entry.prop "id" ∧ t.name = entry.prop "task_name" ∧
  t.description = entry.prop "task_description" ∧ t.category = entry.prop "task_type" ∧
  t.credits_reward = entry.prop "credits_reward" ∧ t.is_daily = entry.prop "is_daily" ∧
  t.is_one_time = entry.prop "is_one_time"

/-! ## A sample peer -/

/-- A catalog entry with the given id and `task_type`. -/
def sampleEntry (id taskType : String) : JVal :=
  .obj [("id", .str id), ("task_name", .str taskType), ("task_type", .str taskType),
    ("credits_reward", .num 10)]

/-- A catalog of three tasks: an `invite_friend`, a `daily_login` and a
`join_discord`. -/
def sampleCatalog : List JVal :=
  [sampleEntry "t-invite" "invite_friend", sampleEntry "t-login" "daily_login",
    sampleEntry "t-discord" "join_discord"]

/-- The tasks still available to the user: the invitation and the login. -/
def sampleAvailable : List JVal :=
  [sampleEntry "t-invite" "invite_friend", sampleEntry "t-login" "daily_login"]

/-- The body `{response: {data: [...]}}` of a list endpoint. -/
def listBody (data : List JVal) : JVal := .obj [("response", .obj [("data", .arr data)])]

/-- A peer that answers the two task lists with the samples, and every other
call with `{success: true}`. -/
def sampleEnv : Env := fun _ _ url _ =>
  if url = tasksUrl then .ok (listBody sampleCatalog)
  else if url = userAvailableUrl then .ok (listBody sampleAvailable)
  else .ok (.obj [("success", .bool true)])

/-- The empty world. -/
def emptyWorld : World := { trace := [] }

/-- The task built from the `daily_login` entry of the sample catalog. -/
def sampleLoginTask : Task :=
  mkTask (sampleAvailable.map (fun x => x.prop "id")) (sampleEntry "t-login" "daily_login")

/-- The body `{success: false, message: 'Task already completed today'}`. -/
def alreadyCompletedBody : JVal :=
  .obj [("success", .bool false), ("message", .str "Task already completed today")]

/-- A peer that answers every call with `alreadyCompletedBody`. -/
def alreadyCompletedEnv : Env := fun _ _ _ _ => .ok alreadyCompletedBody

/-- A peer that answers every call with `body`. -/
def bodyEnv (body : JVal) : Env := fun _ _ _ _ => .ok body

/-- The body `{message: ['already completed']}`: the message is an array. -/
def arrayMessageBody : JVal := .obj [("message", .arr [.str "already completed"])]

/-- The body `{message: ['Task already completed today']}`: the message is an
array whose text contains `already completed`. -/
def arrayTextBody : JVal := .obj [("message", .arr [.str "Task already completed today"])]

/-- The url of the `daily_login` case of `completeTask`. -/
def dailyLoginUrl : String := "https://api.cryptal.ai/apis/v2/vibe-credit/tasks/daily-login"

/-- A pending task of the unsupported category `watch_video`. -/
def sampleVideoTask : Task :=
  mkTask [.str "t-video"] (sampleEntry "t-video" "watch_video")

/-- From world `w` to world `w'` only events satisfying `P` were added. -/
def OnlyEvents (P : Event → Prop) (w w' : World) : Prop :=
  ∃ new : List Event, w'.trace = w.trace ++ new ∧ ∀ e ∈ new, P e

/-- An event a run of `requestWithRetry` on `url` may add: an HTTP call to
`url` or a wait. -/
def IsRetryEvent (url : String) (e : Event) : Prop :=
  (∃ verb config, e = .request verb url config) ∨ ∃ ms, e = .wait ms

/-- The task of a marker of `completeTask` being entered. -/
def Event.enteredTask : Event → Option Task
  | .enterCompleteTask task => some task
  | _ => none

/-- The tasks `completeTask` was entered with, in order. -/
def enteredTasks (events : List Event) : List Task := events.filterMap Event.enteredTask

/-- Whether a call of `completeTask` returned a result with `success` true
(not so when it raised). -/
def returnedSuccess : Except JsError CompleteResult → Bool
  | .ok result => result.success
  | .error _ => false

/-- The world in which iteration number `i` (from 0) of the task loop starts:
the world the loop leaves after the first `i` tasks. -/
def worldBefore (env : Env) (token : String) (proxy : Option String) (tasks : List Task)
    (w : World) (i : Nat) : World :=
  (taskLoop env token proxy (tasks.take i) 0 0 w).1

/-- Whether iteration number `i` of the task loop calls `completeTask` (the
task is `pending`) and the call returns success. -/
def callSucceeded (env : Env) (token : String) (proxy : Option String) (tasks : List Task)
    (w : World) (i : Nat) : Bool :=
  match tasks[i]? with
  | some task =>
    decide (task.status = "pending") &&
      returnedSuccess (completeTask env token task proxy (worldBefore env token proxy tasks w i)).2
  | none => false

/-- The tasks `fetchTasks` builds from the sample catalog: the `daily_login`
task, pending, and the `join_discord` task, completed. -/
def sampleTasks : List Task :=
  (sampleCatalog.filter keptCategory).map (mkTask (sampleAvailable.map (fun x => x.prop "id")))

/-- The outcome of a task GET is a failure, or a success whose body lacks the
expected data: `!body || !body.response || !body.response.data`. -/
def lacksData : Option RequestOutcome → Bool
  | some (.failure _ _) => true
  | some (.success body) =>
    !body.truthy || !(body.prop "response").truthy ||
      !((body.prop "response").prop "data").truthy
  | none => false

/-- The world in which `processAccount` calls `fetchTasks`: after the marker
of its being entered, `fetchUserInfo` and `getPublicIP`. -/
def tasksPhaseStart (env : Env) (token : String) (index total : Nat)
    (proxy : Option String) (w : World) : World :=
  (getPublicIP env proxy
    (fetchUserInfo env token proxy
      (w.emit (.enterProcessAccount token index total proxy))).1).1

/-- An event `processAccount` may add up to the end of `fetchTasks`: the marker
of its being entered, an HTTP call to one of the profile, IP lookup, catalog
and user-available endpoints, or a wait. -/
def IsFetchPhaseEvent (e : Event) : Prop :=
  (∃ token index total proxy, e = .enterProcessAccount token index total proxy) ∨
  IsRetryEvent profilesUrl e ∨ IsRetryEvent ipifyUrl e ∨
  IsRetryEvent tasksUrl e ∨ IsRetryEvent userAvailableUrl e

/-- A peer that fails every call with a status 500. -/
def failingEnv : Env := fun _ _ _ _ => .error { message := "Server error", status := some 500 }

/-- The arguments of a marker of `processAccount` being entered. -/
def Event.accountCall : Event → Option (String × Nat × Nat × Option String)
  | .enterProcessAccount token index total proxy => some (token, index, total, proxy)
  | _ => none

/-- The calls of `processAccount` among the events, in order: token, index,
total and proxy of each. -/
def accountCalls (events : List Event) : List (String × Nat × Nat × Option String) :=
  events.filterMap Event.accountCall

/-- A configuration with proxies enabled and three proxies. -/
def sampleConfig : Config :=
  { globalUseProxy := true
    globalProxies := ["http://p0:8080", "socks5://p1:1080", "http://p2:8080"] }

/-- The names of the fields of an object. -/
def fieldNames (fields : List (String × JVal)) : List String := fields.map Prod.fst

/-- The body `{response: {...fields}}` of the statistics endpoint. -/
def statsBody (fields : List (String × JVal)) : JVal := .obj [("response", .obj fields)]

/-- The statistics of an account with no credit yet:
`{total_credits: 0, leaderboard_rank: 7}`. -/
def zeroCreditsFields : List (String × JVal) :=
  [("total_credits", .num 0), ("leaderboard_rank", .num 7)]

/-- Statistics without a rank: `{total_credits: 120}`. -/
def noRankFields : List (String × JVal) := [("total_credits", .num 120)]

/-- A peer that answers every call with the statistics body of `fields`. -/
def statsEnv (fields : List (String × JVal)) : Env := fun _ _ _ _ => .ok (statsBody fields)

/-! ## The number model: checks -/

theorem log2From_spec :
    ∀ (fuel lo x : Nat), 2 ^ lo ≤ x → x < 2 ^ (lo + 2 ^ fuel) →
      2 ^ log2From fuel lo x ≤ x ∧ x < 2 ^ (log2From fuel lo x + 1) := by
  intro fuel
  induction fuel with
  | zero =>
    intro lo x hlo hhi
    simpa [log2From] using ⟨hlo, hhi⟩
  | succ f ih =>
    intro lo x hlo hhi
    by_cases h : 2 ^ (lo + 2 ^ f) ≤ x
    · simp only [log2From, h, if_true]
      apply ih _ _ h
      have : lo + 2 ^ f + 2 ^ f = lo + 2 ^ (f + 1) := by rw [pow_succ]; omega
      rw [this]
      exact hhi
    · simp only [log2From, h, if_false]
      exact ih _ _ hlo (by omega)

/-- The leading bit found by `floorLog2` is the leading bit. -/
theorem floorLog2_spec (x : Nat) (h0 : 0 < x) (h1 : x < 2 ^ 4096) :
    2 ^ floorLog2 x ≤ x ∧ x < 2 ^ (floorLog2 x + 1) :=
  log2From_spec 12 0 x (by simpa using h0)
    (by
      have h : (0 + 2 ^ 12 : Nat) = 4096 := by norm_num
      rw [h]
      exact h1)

/-- The result of `roundHalfEven` is a nearest multiple of `b`: it is at most
half of `b` away from `a`, and it is an even multiple when `a` is halfway
between two multiples. -/
theorem roundHalfEven_nearest (a b : Nat) (hb : 0 < b) :
    2 * a ≤ 2 * (roundHalfEven a b * b) + b ∧ 2 * (roundHalfEven a b * b) ≤ 2 * a + b ∧
    (2 * (a % b) = b → roundHalfEven a b % 2 = 0) := by
  have h := Nat.div_add_mod a b
  have hmod := Nat.mod_lt a hb
  have hmul : (a / b + 1) * b = b * (a / b) + b := by ring
  have hmul0 : a / b * b = b * (a / b) := by ring
  unfold roundHalfEven
  split_ifs with h1 h2 h3
  · rw [hmul0]; omega
  · rw [hmul]; omega
  · rw [hmul0]; omega
  · rw [hmul]; omega

/-- The result of `roundUnits a b` is `m * 2 ^ u` units, where `2 ^ u` is the
unit in the last place of the exact value `a / b` and `m * 2 ^ u` is at most
half of `2 ^ u` away from `a / b`. -/
theorem roundUnits_nearest (a b : Nat) (hb : 0 < b) :
    ∃ m, roundUnits a b = m * 2 ^ (floorLog2 (a / b) - 52) ∧
      2 * a ≤ 2 * (m * (b * 2 ^ (floorLog2 (a / b) - 52))) + b * 2 ^ (floorLog2 (a / b) - 52) ∧
      2 * (m * (b * 2 ^ (floorLog2 (a / b) - 52))) ≤ 2 * a + b * 2 ^ (floorLog2 (a / b) - 52) := by
  have hpos : 0 < b * 2 ^ (floorLog2 (a / b) - 52) := Nat.mul_pos hb (by positivity)
  obtain ⟨h1, h2, _⟩ := roundHalfEven_nearest a _ hpos
  exact ⟨_, rfl, h1, h2⟩

theorem log2From_bounds :
    ∀ (fuel lo x : Nat), lo ≤ log2From fuel lo x ∧ log2From fuel lo x < lo + 2 ^ fuel := by
  intro fuel
  induction fuel with
  | zero => intro lo x; simp [log2From]
  | succ f ih =>
    intro lo x
    have hp : 2 ^ (f + 1) = 2 ^ f + 2 ^ f := by rw [pow_succ]; omega
    by_cases h : 2 ^ (lo + 2 ^ f) ≤ x
    · simp only [log2From, h, if_true]
      have := ih (lo + 2 ^ f) x
      omega
    · simp only [log2From, h, if_false]
      have := ih lo x
      omega

theorem log2From_mono :
    ∀ (fuel lo x y : Nat), x ≤ y → log2From fuel lo x ≤ log2From fuel lo y := by
  intro fuel
  induction fuel with
  | zero => intro lo x y _; simp [log2From]
  | succ f ih =>
    intro lo x y hxy
    by_cases hx : 2 ^ (lo + 2 ^ f) ≤ x
    · have hy : 2 ^ (lo + 2 ^ f) ≤ y := le_trans hx hxy
      simp only [log2From, hx, hy, if_true]
      exact ih _ _ _ hxy
    · by_cases hy : 2 ^ (lo + 2 ^ f) ≤ y
      · simp only [log2From, hx, hy, if_true, if_false]
        have h1 := log2From_bounds f lo x
        have h2 := log2From_bounds f (lo + 2 ^ f) y
        omega
      · simp only [log2From, hx, hy, if_false]
        exact ih _ _ _ hxy

theorem log2From_lower :
    ∀ (fuel lo x : Nat), lo < log2From fuel lo x → 2 ^ log2From fuel lo x ≤ x := by
  intro fuel
  induction fuel with
  | zero => intro lo x h; simp [log2From] at h
  | succ f ih =>
    intro lo x h
    by_cases hx : 2 ^ (lo + 2 ^ f) ≤ x
    · simp only [log2From, hx, if_true] at h ⊢
      have hb := log2From_bounds f (lo + 2 ^ f) x
      rcases Nat.eq_or_lt_of_le hb.1 with heq | hlt
      · rw [← heq]; exact hx
      · exact ih _ _ hlt
    · simp only [log2From, hx, if_false] at h ⊢
      exact ih _ _ h

theorem log2From_upper :
    ∀ (fuel lo x : Nat), log2From fuel lo x + 1 < lo + 2 ^ fuel →
      x < 2 ^ (log2From fuel lo x + 1) := by
  intro fuel
  induction fuel with
  | zero => intro lo x h; simp [log2From] at h
  | succ f ih =>
    intro lo x h
    have hp : 2 ^ (f + 1) = 2 ^ f + 2 ^ f := by rw [pow_succ]; omega
    by_cases hx : 2 ^ (lo + 2 ^ f) ≤ x
    · simp only [log2From, hx, if_true] at h ⊢
      exact ih _ _ (by omega)
    · simp only [log2From, hx, if_false] at h ⊢
      have hb := log2From_bounds f lo x
      by_cases hlt : log2From f lo x + 1 < lo + 2 ^ f
      · exact ih _ _ hlt
      · have heq : log2From f lo x + 1 = lo + 2 ^ f := by omega
        rw [heq]; omega

theorem roundHalfEven_ge (a d : Nat) : a / d ≤ roundHalfEven a d := by
  unfold roundHalfEven
  split_ifs <;> omega

theorem roundHalfEven_le (a d : Nat) : roundHalfEven a d ≤ a / d + 1 := by
  unfold roundHalfEven
  split_ifs <;> omega

theorem roundHalfEven_mono (a a' d : Nat) (h : a ≤ a') :
    roundHalfEven a d ≤ roundHalfEven a' d := by
  have hq : a / d ≤ a' / d := Nat.div_le_div_right h
  rcases Nat.eq_or_lt_of_le hq with heq | hlt
  · have e1 := Nat.div_add_mod a d
    have e2 := Nat.div_add_mod a' d
    rw [heq] at e1
    have hr : a % d ≤ a' % d := by omega
    unfold roundHalfEven
    rw [heq]
    split_ifs <;> omega
  · have h1 := roundHalfEven_le a d
    have h2 := roundHalfEven_ge a' d
    omega

theorem roundUnits_mono (a a' b : Nat) (h : a ≤ a') :
    roundUnits a b ≤ roundUnits a' b := by
  have hq : a / b ≤ a' / b := Nat.div_le_div_right h
  have hL : floorLog2 (a / b) ≤ floorLog2 (a' / b) := log2From_mono 12 0 _ _ hq
  have hB' := log2From_bounds 12 0 (a' / b)
  unfold roundUnits
  rcases Nat.eq_or_lt_of_le (Nat.sub_le_sub_right hL 52) with heq | hlt
  · rw [← heq]
    exact Nat.mul_le_mul_right _
      (roundHalfEven_mono a a' _ h)
  · have hLlt : floorLog2 (a / b) < floorLog2 (a' / b) := by omega
    have hup : a / b < 2 ^ (floorLog2 (a / b) + 1) :=
      log2From_upper 12 0 _ (by
        have : floorLog2 (a' / b) < 0 + 2 ^ 12 := hB'.2
        show log2From 12 0 (a / b) + 1 < 0 + 2 ^ 12
        have h3 : log2From 12 0 (a / b) < log2From 12 0 (a' / b) := hLlt
        omega)
    have hlow : 2 ^ floorLog2 (a' / b) ≤ a' / b :=
      log2From_lower 12 0 _ (by
        show 0 < log2From 12 0 (a' / b)
        have h3 : log2From 12 0 (a / b) < log2From 12 0 (a' / b) := hLlt
        omega)
    generalize floorLog2 (a / b) = L at hLlt hup hlt ⊢
    generalize floorLog2 (a' / b) = L' at hLlt hlow hlt hB' ⊢
    -- the smaller value rounds to at most `2 ^ (53 + u)`
    have h1 : roundHalfEven a (b * 2 ^ (L - 52)) * 2 ^ (L - 52) ≤ 2 ^ (53 + (L - 52)) := by
      have hle := roundHalfEven_le a (b * 2 ^ (L - 52))
      have hdiv : a / (b * 2 ^ (L - 52)) < 2 ^ 53 := by
        rw [← Nat.div_div_eq_div_mul, Nat.div_lt_iff_lt_mul (by positivity), ← pow_add]
        exact lt_of_lt_of_le hup (Nat.pow_le_pow_right (by norm_num) (by omega))
      calc roundHalfEven a (b * 2 ^ (L - 52)) * 2 ^ (L - 52)
          ≤ 2 ^ 53 * 2 ^ (L - 52) := Nat.mul_le_mul_right _ (by omega)
        _ = 2 ^ (53 + (L - 52)) := by rw [pow_add]
    -- the larger value rounds to at least `2 ^ L'`
    have h2 : 2 ^ L' ≤ roundHalfEven a' (b * 2 ^ (L' - 52)) * 2 ^ (L' - 52) := by
      have hge := roundHalfEven_ge a' (b * 2 ^ (L' - 52))
      have hdiv : 2 ^ (L' - (L' - 52)) ≤ a' / (b * 2 ^ (L' - 52)) := by
        rw [← Nat.div_div_eq_div_mul, Nat.le_div_iff_mul_le (by positivity), ← pow_add]
        have : L' - (L' - 52) + (L' - 52) = L' := by omega
        rw [this]
        exact hlow
      calc 2 ^ L' = 2 ^ (L' - (L' - 52)) * 2 ^ (L' - 52) := by
            rw [← pow_add]; congr 1; omega
        _ ≤ roundHalfEven a' (b * 2 ^ (L' - 52)) * 2 ^ (L' - 52) :=
            Nat.mul_le_mul_right _ (le_trans hdiv hge)
    have h3 : 2 ^ (53 + (L - 52)) ≤ 2 ^ L' := Nat.pow_le_pow_right (by norm_num) (by omega)
    exact le_trans h1 (le_trans h3 h2)

theorem roundUnits_three_halves_ge (n : Nat) : n ≤ roundUnits (n * 3) 2 := by
  rcases Nat.eq_zero_or_pos n with h0 | hpos
  · subst h0; exact Nat.zero_le _
  · unfold roundUnits
    have hd : 0 < 2 * 2 ^ (floorLog2 (n * 3 / 2) - 52) := by positivity
    have hnear := (roundHalfEven_nearest (n * 3) _ hd).1
    have hu : 2 ^ (floorLog2 (n * 3 / 2) - 52) ≤ n := by
      rcases Nat.eq_zero_or_pos (floorLog2 (n * 3 / 2) - 52) with hz | hp
      · rw [hz]; simpa using hpos
      · have hlow : 2 ^ floorLog2 (n * 3 / 2) ≤ n * 3 / 2 :=
          log2From_lower 12 0 _ (by
            show 0 < floorLog2 (n * 3 / 2)
            omega)
        have he : 52 + (floorLog2 (n * 3 / 2) - 52) = floorLog2 (n * 3 / 2) := by omega
        have hsplit : 2 ^ floorLog2 (n * 3 / 2)
            = 2 ^ 52 * 2 ^ (floorLog2 (n * 3 / 2) - 52) := by
          rw [← pow_add, he]
        have h52 : (4 : Nat) ≤ 2 ^ 52 := by norm_num
        have hmul : 4 * 2 ^ (floorLog2 (n * 3 / 2) - 52)
            ≤ 2 ^ 52 * 2 ^ (floorLog2 (n * 3 / 2) - 52) := Nat.mul_le_mul_right _ h52
        have hdiv : n * 3 / 2 * 2 ≤ n * 3 := Nat.div_mul_le_self _ _
        omega
    generalize 2 ^ (floorLog2 (n * 3 / 2) - 52) = U at hnear hu hd ⊢
    generalize roundHalfEven (n * 3) (2 * U) = m at hnear ⊢
    have e : m * (2 * U) = 2 * (m * U) := by ring
    rw [e] at hnear
    omega

theorem nonneg_of_zero_le (x : JsNum) (h : JsNum.le 0 x = true) : x.Nonneg := by
  have h0 : (0 : JsNum) = .fin 0 := by decide!
  rw [h0] at h
  cases x with
  | nan => simp [JsNum.le] at h
  | inf negative =>
    cases negative
    · exact Or.inl rfl
    · simp [JsNum.le] at h
  | fin units =>
    simp only [JsNum.le, decide_eq_true_eq] at h
    exact Or.inr ⟨units.toNat, by rw [Int.toNat_of_nonneg h]⟩

theorem scale_fin_nat (n p q : Nat) :
    (JsNum.fin n).scale p q
      = if roundUnits (n * p) q < 2 ^ 2098 then .fin (roundUnits (n * p) q) else .inf false := by
  have hn : ¬ ((n : Int) < 0) := by omega
  simp only [JsNum.scale, Int.natAbs_ofNat, hn, if_false, decide_False]

theorem scale_nonneg (x : JsNum) (p q : Nat) (h : x.Nonneg) : (x.scale p q).Nonneg := by
  rcases h with rfl | ⟨n, rfl⟩
  · exact Or.inl rfl
  · rw [scale_fin_nat]
    split_ifs
    · exact Or.inr ⟨_, rfl⟩
    · exact Or.inl rfl

theorem scale_mono (x y : JsNum) (p q : Nat) (hx : x.Nonneg) (hy : y.Nonneg)
    (h : JsNum.le x y = true) : JsNum.le (x.scale p q) (y.scale p q) = true := by
  rcases hx with rfl | ⟨n, rfl⟩ <;> rcases hy with rfl | ⟨m, rfl⟩
  · rfl
  · simp [JsNum.le] at h
  · rw [scale_fin_nat]
    split_ifs <;> rfl
  · simp only [JsNum.le, decide_eq_true_eq, Nat.cast_le] at h
    have hmono := roundUnits_mono (n * p) (m * p) q (Nat.mul_le_mul_right _ h)
    rw [scale_fin_nat, scale_fin_nat]
    split_ifs with h1 h2 h2
    · simpa [JsNum.le] using hmono
    · rfl
    · omega
    · rfl

theorem le_nextBackoff (x : JsNum) (hx : x.Nonneg) : JsNum.le x (nextBackoff x) = true := by
  rcases hx with rfl | ⟨n, rfl⟩
  · rfl
  · rw [nextBackoff, scale_fin_nat]
    split_ifs
    · simpa [JsNum.le] using roundUnits_three_halves_ge n
    · rfl

theorem timerOf_mono (x y : JsNum) (hx : x.Nonneg) (hy : y.Nonneg)
    (h : JsNum.le x y = true) : JsNum.le (timerOf x) (timerOf y) = true :=
  scale_mono _ _ 1000 1 (scale_nonneg _ _ _ hx) (scale_nonneg _ _ _ hy)
    (scale_mono _ _ 1 1000 hx hy h)

theorem iterate_nextBackoff_nonneg (b : JsNum) (hb : b.Nonneg) :
    ∀ k, (nextBackoff^[k] b).Nonneg := by
  intro k
  induction k with
  | zero => exact hb
  | succ k ih =>
    rw [Function.iterate_succ_apply']
    exact scale_nonneg _ _ _ ih

/-- With an initial backoff of at least zero, no wait is shorter than the one
before it. -/
theorem waitAt_le_succ (b : JsNum) (hb : JsNum.le 0 b = true) (k : Nat) :
    JsNum.le (waitAt b k) (waitAt b (k + 1)) = true := by
  have hn := iterate_nextBackoff_nonneg b (nonneg_of_zero_le b hb) k
  unfold waitAt
  rw [Function.iterate_succ_apply']
  exact timerOf_mono _ _ hn (scale_nonneg _ _ _ hn) (le_nextBackoff _ hn)

theorem chain_waitAt (b : JsNum) (hb : JsNum.le 0 b = true) (n : Nat) :
    List.Chain' (fun x y => JsNum.le x y = true) ((List.range n).map (waitAt b)) := by
  rw [List.chain'_iff_get]
  intro i hi
  simp only [List.get_eq_getElem, List.getElem_map, List.getElem_range]
  exact waitAt_le_succ b hb i

/-- The double `0.1`, computed as `1 / 10`, is `0x1.999999999999ap-4`. -/
theorem scale_one_tenth :
    (1 : JsNum).scale 1 10 = .fin (0x1999999999999a * 2 ^ 1018) := by
  decide!

/-- The doubles `0.1 * 3` and `0.3` differ: the product is one unit in the last
place above the literal, as in every IEEE implementation. -/
theorem scale_three_tenths :
    ((1 : JsNum).scale 1 10).scale 3 1 = .fin (0x13333333333334 * 2 ^ 1020) ∧
    (3 : JsNum).scale 1 10 = .fin (0x13333333333333 * 2 ^ 1020) := by
  decide!

/-- Rounding at the ends of the range: the largest double times `1.5` is
`Infinity`, half the smallest double is `0` and `1.5` times it is twice it
(ties go to the even significand). -/
theorem scale_range_ends :
    (JsNum.fin ((2 ^ 53 - 1) * 2 ^ 2045)).scale 3 2 = .inf false ∧
    (JsNum.fin (-((2 ^ 53 - 1) * 2 ^ 2045))).scale 3 2 = .inf true ∧
    (JsNum.fin 1).scale 1 2 = .fin 0 ∧
    (JsNum.fin 1).scale 3 2 = .fin 2 ∧
    (JsNum.fin (-3)).scale 1 2 = .fin (-2) := by
  decide!

/-! ## The retrying request executor: properties -/


theorem delay_div_thousand (b : JsNum) (w : World) :
    delay (b.scale 1 1000) w = w.emit (.wait (timerOf b)) := rfl

theorem attempt_of_verb (env : Env) (method url : String) (config : AxiosConfig)
    (verb : String) (hv : verb = "get" ∨ verb = "post")
    (hm : toLowerCase method = verb) (w : World) :
    attempt env method url config w = axiosCall env verb url config w := by
  rcases hv with h | h
  · subst h; simp [attempt, hm]
  · subst h
    have : ¬ (toLowerCase method = "get") := by rw [hm]; decide
    simp [attempt, hm]

/-- When the first `j` attempts fail and the next one succeeds, the loop stops
right after the successful attempt. -/
theorem requestWithRetryFrom_success (env : Env) (method url : String)
    (config : AxiosConfig) (verb : String) (hv : verb = "get" ∨ verb = "post")
    (hm : toLowerCase method = verb) (retries : Nat) (d : JVal) :
    ∀ (j fuel i : Nat) (b : JsNum) (w : World), i + j < retries → j < fuel →
      (∀ k, k < j → ∃ e, env (w.trace ++ retryEvents (.request verb url config) k b)
          verb url config = .error e) →
      env (w.trace ++ retryEvents (.request verb url config) j b) verb url config = .ok d →
      requestWithRetryFrom env method url config retries fuel i b w
        = ({ trace := w.trace ++ retryEvents (.request verb url config) j b
              ++ [.request verb url config] }, some (.success d)) := by
  intro j
  induction j with
  | zero =>
    intro fuel i b w hi hf _ hok
    obtain ⟨f, rfl⟩ : ∃ f, fuel = f + 1 := ⟨fuel - 1, by omega⟩
    have hlt : i < retries := by omega
    simp only [retryEvents, List.append_nil] at hok
    simp [requestWithRetryFrom, hlt, attempt_of_verb env method url config verb hv hm,
      axiosCall, hok, World.emit, retryEvents]
  | succ j ih =>
    intro fuel i b w hi hf herr hok
    obtain ⟨f, rfl⟩ : ∃ f, fuel = f + 1 := ⟨fuel - 1, by omega⟩
    have hlt : i < retries := by omega
    have hlt1 : i < retries - 1 := by omega
    obtain ⟨e, he⟩ := herr 0 (by omega)
    simp only [retryEvents, List.append_nil] at he
    have hrec := ih f (i + 1) (b.scale 3 2)
      ((w.emit (.request verb url config)).emit (.wait (timerOf b))) (by omega) (by omega)
      (by
        intro k hk
        have := herr (k + 1) (by omega)
        simpa [World.emit, retryEvents, nextBackoff] using this)
      (by simpa [World.emit, retryEvents, nextBackoff] using hok)
    simp only [requestWithRetryFrom, hlt, if_true,
      attempt_of_verb env method url config verb hv hm, axiosCall, he, hlt1,
      delay_div_thousand]
    rw [hrec]
    simp [World.emit, retryEvents, nextBackoff]

/-- When all the remaining `n + 1` attempts fail, the loop makes them all,
waits between them and returns the failure outcome of the last error. -/
theorem requestWithRetryFrom_failure (env : Env) (method url : String)
    (config : AxiosConfig) (verb : String) (hv : verb = "get" ∨ verb = "post")
    (hm : toLowerCase method = verb) (retries : Nat) (e : JsError) :
    ∀ (n fuel i : Nat) (b : JsNum) (w : World), i + n + 1 = retries → n < fuel →
      (∀ k, k < n → ∃ e, env (w.trace ++ retryEvents (.request verb url config) k b)
          verb url config = .error e) →
      env (w.trace ++ retryEvents (.request verb url config) n b) verb url config
        = .error e →
      requestWithRetryFrom env method url config retries fuel i b w
        = ({ trace := w.trace ++ retryEvents (.request verb url config) n b
              ++ [.request verb url config] }, some (failureOf e)) := by
  intro n
  induction n with
  | zero =>
    intro fuel i b w hi hf _ hlast
    obtain ⟨f, rfl⟩ : ∃ f, fuel = f + 1 := ⟨fuel - 1, by omega⟩
    have hlt : i < retries := by omega
    have hlt1 : ¬ i < retries - 1 := by omega
    simp only [retryEvents, List.append_nil] at hlast
    by_cases h404 : e.status = some 404 <;>
      simp [requestWithRetryFrom, hlt, attempt_of_verb env method url config verb hv hm,
        axiosCall, hlast, World.emit, retryEvents, hlt1, failureOf, h404]
  | succ n ih =>
    intro fuel i b w hi hf herr hlast
    obtain ⟨f, rfl⟩ : ∃ f, fuel = f + 1 := ⟨fuel - 1, by omega⟩
    have hlt : i < retries := by omega
    have hlt1 : i < retries - 1 := by omega
    obtain ⟨e0, he⟩ := herr 0 (by omega)
    simp only [retryEvents, List.append_nil] at he
    have hrec := ih f (i + 1) (b.scale 3 2)
      ((w.emit (.request verb url config)).emit (.wait (timerOf b))) (by omega) (by omega)
      (by
        intro k hk
        have := herr (k + 1) (by omega)
        simpa [World.emit, retryEvents, nextBackoff] using this)
      (by simpa [World.emit, retryEvents, nextBackoff] using hlast)
    simp only [requestWithRetryFrom, hlt, if_true,
      attempt_of_verb env method url config verb hv hm, axiosCall, he, hlt1,
      delay_div_thousand]
    rw [hrec]
    simp [World.emit, retryEvents, nextBackoff]



theorem requestCount_append (l₁ l₂ : List Event) :
    requestCount (l₁ ++ l₂) = requestCount l₁ + requestCount l₂ := by
  simp [requestCount, List.countP_append]

theorem waitsOf_append (l₁ l₂ : List Event) :
    waitsOf (l₁ ++ l₂) = waitsOf l₁ ++ waitsOf l₂ := by
  simp [waitsOf, List.filterMap_append]

theorem requestCount_request_cons (verb url : String) (config : AxiosConfig)
    (l : List Event) :
    requestCount (Event.request verb url config :: l) = requestCount l + 1 := by
  simp [requestCount, List.countP_cons, Event.isRequest]

theorem requestCount_wait_cons (ms : JsNum) (l : List Event) :
    requestCount (Event.wait ms :: l) = requestCount l := by
  simp [requestCount, List.countP_cons, Event.isRequest]

theorem waitsOf_request_cons (verb url : String) (config : AxiosConfig)
    (l : List Event) :
    waitsOf (Event.request verb url config :: l) = waitsOf l := by
  simp [waitsOf, Event.waitMs]

theorem waitsOf_wait_cons (ms : JsNum) (l : List Event) :
    waitsOf (Event.wait ms :: l) = ms :: waitsOf l := by
  simp [waitsOf, Event.waitMs]

theorem requestCount_retryEvents (verb url : String) (config : AxiosConfig) :
    ∀ (k : Nat) (b : JsNum), requestCount (retryEvents (.request verb url config) k b) = k := by
  intro k
  induction k with
  | zero => intro b; simp [retryEvents, requestCount]
  | succ k ih =>
    intro b
    simp [retryEvents, requestCount_request_cons, requestCount_wait_cons, ih]

theorem waitsOf_retryEvents (verb url : String) (config : AxiosConfig) :
    ∀ (k : Nat) (b : JsNum), waitsOf (retryEvents (.request verb url config) k b)
      = (List.range k).map (waitAt b) := by
  intro k
  induction k with
  | zero => intro b; simp [retryEvents, waitsOf]
  | succ k ih =>
    intro b
    simp only [retryEvents, waitsOf_request_cons, waitsOf_wait_cons, ih,
      List.range_succ_eq_map, List.map_cons, List.map_map]
    simp only [waitAt, Function.iterate_zero, id_eq, List.cons.injEq, true_and]
    apply List.map_congr_left
    intro m _
    simp only [Function.comp, waitAt, Function.iterate_succ_apply]

theorem backoffWaits_eq_map :
    ∀ (k : Nat) (b : JsNum),
      backoffWaits k b = (List.range k).map (fun m => Event.wait (waitAt b m)) := by
  intro k
  induction k with
  | zero => intro b; simp [backoffWaits]
  | succ k ih =>
    intro b
    simp only [backoffWaits, ih, List.range_succ_eq_map, List.map_cons, List.map_map]
    simp only [waitAt, Function.iterate_zero, id_eq, List.cons.injEq, true_and]
    apply List.map_congr_left
    intro m _
    simp only [Function.comp, waitAt, Function.iterate_succ_apply]



/-- C1, as stated, fails on the durations of the waits, which the program
computes in doubles. Against a peer that fails every attempt, a GET with
initial backoff 113 and four retries waits 113, 169.5 and 254.24999999999997
milliseconds: the third wait is not `113 * 1.5 ^ 2`, which is the double 254.25,
and it is less than 1.5 times the second wait. With initial backoff 1001 and
two retries the one wait is 1000.9999999999999 milliseconds, less than 1001. -/
theorem requestWithRetry_waits_are_rounded :
    waitsOf (requestWithRetry failingEnv "GET" "u" (getAxiosConfig none (some "t") true)
        4 113 emptyWorld).1.trace
      = [113, .fin (339 * 2 ^ 1073), .fin (1017 * 2 ^ 1072 - 2 ^ 1029)] ∧
    ((113 : JsNum).scale 3 2).scale 3 2 = .fin (1017 * 2 ^ 1072) ∧
    JsNum.lt (.fin (1017 * 2 ^ 1072 - 2 ^ 1029)) (.fin (1017 * 2 ^ 1072)) = true ∧
    JsNum.atLeastOneAndAHalfTimes (.fin (339 * 2 ^ 1073))
      (.fin (1017 * 2 ^ 1072 - 2 ^ 1029)) = false ∧
    waitsOf (requestWithRetry failingEnv "GET" "u" (getAxiosConfig none (some "t") true)
        2 1001 emptyWorld).1.trace
      = [.fin (1001 * 2 ^ 1074 - 2 ^ 1031)] ∧
    JsNum.lt (.fin (1001 * 2 ^ 1074 - 2 ^ 1031)) 1001 = true := by
  refine ⟨?_, ?_, ?_, ?_, ?_, ?_⟩ <;> decide!

/-- C1, amended. For a GET or POST and `retries ≥ 1`: when every attempt fails,
the run adds exactly `retries` HTTP attempts and `retries - 1` waits to the
trace, the last event being an attempt, not a wait; the `k`-th wait
(`k = 1 .. retries - 1`) is the timer value `(b / 1000) * 1000` of the backoff
`b` obtained from the initial one by `k - 1` multiplications by 1.5, every
operation being rounded to a double, and with an initial backoff of at least
zero no wait is shorter than the one before it. When attempt number `j` is the
first to succeed, the run adds `j + 1` attempts and `j` waits, and the
successful attempt is its last event. For the initial backoff 2000, the value
of every call in the program, the first thirty waits are exactly
`2000 * 1.5 ^ (k - 1)` milliseconds, the first two being 2000 and 3000. -/
theorem requestWithRetry_attempts_and_waits (env : Env) (method url : String)
    (config : AxiosConfig) (retries : Nat) (backoff : JsNum) (w : World)
    (hm : toLowerCase method = "get" ∨ toLowerCase method = "post")
    (hr : 1 ≤ retries) :
    ((∀ k, k < retries →
        ∃ e, answerAt env w (toLowerCase method) url config backoff k = .error e) →
      ∃ new : List Event,
        (requestWithRetry env method url config retries backoff w).1.trace = w.trace ++ new ∧
        requestCount new = retries ∧
        (waitsOf new).length = retries - 1 ∧
        waitsOf new
          = (List.range (retries - 1)).map
              (fun k => ((nextBackoff^[k] backoff).scale 1 1000).scale 1000 1) ∧
        (JsNum.le 0 backoff = true →
          List.Chain' (fun x y => JsNum.le x y = true) (waitsOf new)) ∧
        new.getLast? = some (.request (toLowerCase method) url config)) ∧
    (∀ (j : Nat) (d : JVal), j < retries →
      (∀ k, k < j →
        ∃ e, answerAt env w (toLowerCase method) url config backoff k = .error e) →
      answerAt env w (toLowerCase method) url config backoff j = .ok d →
      ∃ pre : List Event,
        requestWithRetry env method url config retries backoff w
          = ({ trace := w.trace ++ (pre ++ [.request (toLowerCase method) url config]) },
              some (.success d)) ∧
        env (w.trace ++ pre) (toLowerCase method) url config = .ok d ∧
        requestCount (pre ++ [.request (toLowerCase method) url config]) = j + 1 ∧
        (waitsOf (pre ++ [.request (toLowerCase method) url config])).length = j) ∧
    ((List.range 30).map (fun k => ((nextBackoff^[k] 2000).scale 1 1000).scale 1000 1)
        = (List.range 30).map (fun k => JsNum.fin (2000 * 3 ^ k * 2 ^ (1074 - k))) ∧
      JsNum.fin (2000 * 3 ^ 0 * 2 ^ (1074 - 0)) = 2000 ∧
      JsNum.fin (2000 * 3 ^ 1 * 2 ^ (1074 - 1)) = 3000) := by
  refine ⟨?_, ?_, ?_, ?_, ?_⟩
  · intro hfail
    obtain ⟨e, he⟩ := hfail (retries - 1) (by omega)
    have hrun := requestWithRetryFrom_failure env method url config (toLowerCase method)
      hm rfl retries e (retries - 1) retries 0 backoff w (by omega) (by omega)
      (fun k hk => hfail k (by omega)) he
    refine ⟨retryEvents (.request (toLowerCase method) url config) (retries - 1) backoff
      ++ [.request (toLowerCase method) url config], ?_, ?_, ?_, ?_, ?_, ?_⟩
    · simp [requestWithRetry, hrun]
    · rw [requestCount_append, requestCount_retryEvents]
      rw [requestCount_request_cons]; simp [requestCount]; omega
    · rw [waitsOf_append, waitsOf_retryEvents, waitsOf_request_cons]; simp [waitsOf]
    · rw [waitsOf_append, waitsOf_retryEvents, waitsOf_request_cons]
      simp [waitsOf, waitAt, timerOf]
    · intro hb
      rw [waitsOf_append, waitsOf_retryEvents, waitsOf_request_cons]
      simpa [waitsOf] using chain_waitAt backoff hb (retries - 1)
    · simp
  · intro j d hj herr hok
    have hrun := requestWithRetryFrom_success env method url config (toLowerCase method)
      hm rfl retries d j retries 0 backoff w (by omega) (by omega) herr hok
    refine ⟨retryEvents (.request (toLowerCase method) url config) j backoff, ?_, hok, ?_, ?_⟩
    · simp [requestWithRetry, hrun]
    · rw [requestCount_append, requestCount_retryEvents, requestCount_request_cons]
      simp [requestCount]
    · rw [waitsOf_append, waitsOf_retryEvents, waitsOf_request_cons]; simp [waitsOf]
  · decide!
  · decide!
  · decide!

/-- C1, amended, at a concrete input: a GET with three retries and the default
backoff against a peer that always fails. -/
theorem requestWithRetry_attempts_and_waits_witness :
    ∃ new : List Event,
      (requestWithRetry (fun _ _ _ _ => .error { message := "timeout", status := none })
        "GET" "u" (getAxiosConfig none (some "t") true) 3 2000 { trace := [] }).1.trace
          = [] ++ new ∧
      requestCount new = 3 ∧
      (waitsOf new).length = 3 - 1 ∧
      waitsOf new
        = (List.range (3 - 1)).map
            (fun k => ((nextBackoff^[k] 2000).scale 1 1000).scale 1000 1) ∧
      (JsNum.le 0 2000 = true →
        List.Chain' (fun x y => JsNum.le x y = true) (waitsOf new)) ∧
      new.getLast? = some (.request (toLowerCase "GET") "u" (getAxiosConfig none (some "t") true)) :=
  (requestWithRetry_attempts_and_waits
    (fun _ _ _ _ => .error { message := "timeout", status := none })
    "GET" "u" (getAxiosConfig none (some "t") true) 3 2000 { trace := [] }
    (Or.inl (by decide)) (by decide)).1 (fun _ _ => ⟨_, rfl⟩)



theorem requestCount_backoffWaits :
    ∀ (k : Nat) (b : JsNum), requestCount (backoffWaits k b) = 0 := by
  intro k
  induction k with
  | zero => intro b; simp [backoffWaits, requestCount]
  | succ k ih => intro b; simp [backoffWaits, requestCount_wait_cons, ih]

theorem length_waitsOf_backoffWaits :
    ∀ (k : Nat) (b : JsNum), (waitsOf (backoffWaits k b)).length = k := by
  intro k
  induction k with
  | zero => intro b; simp [backoffWaits, waitsOf]
  | succ k ih => intro b; simp [backoffWaits, waitsOf_wait_cons, ih]

theorem attempt_unsupported (env : Env) (method url : String) (config : AxiosConfig)
    (hg : toLowerCase method ≠ "get") (hp : toLowerCase method ≠ "post") (w : World) :
    attempt env method url config w
      = (w, .error { message := "Method " ++ method ++ " not supported", status := none }) := by
  simp [attempt, hg, hp]

theorem requestWithRetryFrom_unsupported (env : Env) (method url : String)
    (config : AxiosConfig) (hg : toLowerCase method ≠ "get")
    (hp : toLowerCase method ≠ "post") (retries : Nat) :
    ∀ (n fuel i : Nat) (b : JsNum) (w : World), i + n + 1 = retries → n < fuel →
      requestWithRetryFrom env method url config retries fuel i b w
        = ({ trace := w.trace ++ backoffWaits n b },
            some (.failure ("Method " ++ method ++ " not supported") none)) := by
  intro n
  induction n with
  | zero =>
    intro fuel i b w hi hf
    obtain ⟨f, rfl⟩ : ∃ f, fuel = f + 1 := ⟨fuel - 1, by omega⟩
    have hlt : i < retries := by omega
    have hlt1 : ¬ i < retries - 1 := by omega
    simp [requestWithRetryFrom, hlt, hlt1, attempt_unsupported env method url config hg hp,
      backoffWaits]
  | succ n ih =>
    intro fuel i b w hi hf
    obtain ⟨f, rfl⟩ : ∃ f, fuel = f + 1 := ⟨fuel - 1, by omega⟩
    have hlt : i < retries := by omega
    have hlt1 : i < retries - 1 := by omega
    simp only [requestWithRetryFrom, hlt, if_true, hlt1,
      attempt_unsupported env method url config hg hp, delay_div_thousand]
    rw [ih f (i + 1) (b.scale 3 2) (w.emit (.wait (timerOf b))) (by omega) (by omega)]
    simp [World.emit, backoffWaits, nextBackoff]

/-- C2. For a GET or POST and `retries ≥ 1`, when the peer answers every
attempt with status 404, `requestWithRetry` returns
`{success: false, message: 'Task endpoint not found', status: 404}`, whatever
the messages of the errors and whatever `retries` is. -/
theorem requestWithRetry_always_404 (env : Env) (method url : String)
    (config : AxiosConfig) (retries : Nat) (backoff : JsNum) (w : World)
    (hm : toLowerCase method = "get" ∨ toLowerCase method = "post")
    (hr : 1 ≤ retries)
    (h404 : ∀ k, k < retries → ∃ msg,
      answerAt env w (toLowerCase method) url config backoff k
        = .error { message := msg, status := some 404 }) :
    (requestWithRetry env method url config retries backoff w).2
      = some (.failure "Task endpoint not found" (some 404)) := by
  obtain ⟨msg, he⟩ := h404 (retries - 1) (by omega)
  have hrun := requestWithRetryFrom_failure env method url config (toLowerCase method)
    hm rfl retries { message := msg, status := some 404 } (retries - 1) retries 0 backoff w
    (by omega) (by omega)
    (fun k hk => by
      obtain ⟨m, hm'⟩ := h404 k (by omega)
      exact ⟨_, hm'⟩) he
  simp [requestWithRetry, hrun, failureOf]

/-- C2 at a concrete input: a POST with five retries, every attempt answered
by a 404 whose own message is different from the fixed one. -/
theorem requestWithRetry_always_404_witness :
    (requestWithRetry
      (fun _ _ _ _ => .error { message := "Request failed with status code 404", status := some 404 })
      "post" "u" (getAxiosConfig none (some "t") true) 5 2000 { trace := [] }).2
      = some (.failure "Task endpoint not found" (some 404)) :=
  requestWithRetry_always_404
    (fun _ _ _ _ => .error { message := "Request failed with status code 404", status := some 404 })
    "post" "u" (getAxiosConfig none (some "t") true) 5 2000 { trace := [] }
    (Or.inr (by decide)) (by decide) (fun _ _ => ⟨_, rfl⟩)

/-- C3, as stated, fails: for the method `PUT` with three retries the executor
goes through its retry loop, waiting 2000 ms and then 3000 ms, and the
`Method PUT not supported` error comes back as a returned failure outcome. -/
theorem requestWithRetry_unsupported_is_retried :
    requestWithRetry (fun _ _ _ _ => .ok .null) "PUT" "u"
        (getAxiosConfig none (some "t") true) 3 2000 { trace := [] }
      = ({ trace := [.wait 2000, .wait 3000] },
          some (.failure "Method PUT not supported" none)) := by
  have hg : toLowerCase "PUT" ≠ "get" := by decide
  have hp : toLowerCase "PUT" ≠ "post" := by decide
  have h1 : timerOf 2000 = 2000 := by decide!
  have h2 : timerOf (nextBackoff 2000) = 3000 := by decide!
  rw [requestWithRetry, requestWithRetryFrom_unsupported _ _ _ _ hg hp 3 2 3 0 2000 _
    (by decide) (by decide)]
  simp only [backoffWaits, h1, h2]
  rfl

/-- C3, amended. For a method that is neither GET nor POST and `retries ≥ 1`,
`requestWithRetry` issues no HTTP call, and the `Method <m> not supported`
error goes through the retry handler like the error of any failed attempt:
the run consists of exactly `retries - 1` backoff waits, the same waits as for
failing requests, after which the error is not raised but comes back as the
returned failure outcome
`{success: false, message: 'Method <m> not supported', status: undefined}`. -/
theorem requestWithRetry_unsupported_method (env : Env) (method url : String)
    (config : AxiosConfig) (retries : Nat) (backoff : JsNum) (w : World)
    (hg : toLowerCase method ≠ "get") (hp : toLowerCase method ≠ "post")
    (hr : 1 ≤ retries) :
    ∃ new : List Event,
      requestWithRetry env method url config retries backoff w
        = ({ trace := w.trace ++ new },
            some (.failure ("Method " ++ method ++ " not supported") none)) ∧
      new = (List.range (retries - 1)).map
        (fun k => Event.wait (((nextBackoff^[k] backoff).scale 1 1000).scale 1000 1)) ∧
      requestCount new = 0 ∧
      (waitsOf new).length = retries - 1 := by
  refine ⟨backoffWaits (retries - 1) backoff,
    requestWithRetryFrom_unsupported env method url config hg hp retries (retries - 1)
      retries 0 backoff w (by omega) (by omega), ?_,
    requestCount_backoffWaits _ _, length_waitsOf_backoffWaits _ _⟩
  rw [backoffWaits_eq_map]; rfl

/-- C3, amended, at a concrete input: the method `DELETE` with three retries
and the default backoff. -/
theorem requestWithRetry_unsupported_method_witness :
    ∃ new : List Event,
      requestWithRetry (fun _ _ _ _ => .ok .null) "DELETE" "u"
          (getAxiosConfig none none false) 3 2000 { trace := [] }
        = ({ trace := [] ++ new },
            some (.failure ("Method " ++ "DELETE" ++ " not supported") none)) ∧
      new = (List.range (3 - 1)).map
        (fun k => Event.wait (((nextBackoff^[k] 2000).scale 1 1000).scale 1000 1)) ∧
      requestCount new = 0 ∧
      (waitsOf new).length = 3 - 1 :=
  requestWithRetry_unsupported_method (fun _ _ _ _ => .ok .null) "DELETE" "u"
    (getAxiosConfig none none false) 3 2000 { trace := [] } (by decide) (by decide)
    (by decide)

/-! ## `fetchTasks`: properties -/

theorem responseData_of_data (body : JVal) (failMessage : String) (xs : List JVal)
    (h : (body.prop "response").prop "data" = .arr xs) :
    responseData (some (.success body)) failMessage = .ok (.arr xs) := by
  cases body with
  | obj fields =>
    simp only [JVal.prop] at h
    cases hin : lookupField "response" fields with
    | obj inner =>
      rw [hin] at h
      simp only [JVal.prop] at h
      simp [responseData, JVal.truthy, JVal.get, JVal.nullish, JVal.prop, hin, h]
    | _ => rw [hin] at h; simp [JVal.prop] at h
  | _ => simp [JVal.prop] at h

theorem mapIds_eq (l : List JVal) :
    mapIds l = if l.any JVal.nullish then .error typeError
      else .ok (l.map (fun x => x.prop "id")) := by
  induction l with
  | nil => simp [mapIds]
  | cons x l ih =>
    by_cases hx : x.nullish = true
    · simp [mapIds, JVal.get, hx]
    · by_cases hl : l.any JVal.nullish = true
      · simp [mapIds, JVal.get, hx, ih, hl]
      · simp [mapIds, JVal.get, hx, ih, hl]

theorem filterTasks_eq (l : List JVal) :
    filterTasks l = if l.any JVal.nullish then .error typeError
      else .ok (l.filter keptCategory) := by
  induction l with
  | nil => simp [filterTasks]
  | cons x l ih =>
    by_cases hx : x.nullish = true
    · simp [filterTasks, JVal.get, hx]
    · by_cases hl : l.any JVal.nullish = true
      · simp [filterTasks, JVal.get, hx, ih, hl]
      · by_cases hk : keptCategory x = true
        · have hk' := hk
          simp only [keptCategory] at hk'
          simp [filterTasks, JVal.get, hx, ih, hl, hk, hk']
        · have hk' := hk
          simp only [keptCategory] at hk'
          simp [filterTasks, JVal.get, hx, ih, hl, hk, hk']

theorem mapTasks_eq (ids : List JVal) (l : List JVal) :
    mapTasks ids l = if l.any JVal.nullish then .error typeError
      else .ok (l.map (mkTask ids)) := by
  induction l with
  | nil => simp [mapTasks]
  | cons x l ih =>
    by_cases hx : x.nullish = true
    · simp [mapTasks, toTask, hx]
    · by_cases hl : l.any JVal.nullish = true
      · simp [mapTasks, toTask, hx, ih, hl]
      · simp [mapTasks, toTask, hx, ih, hl]

theorem any_nullish_filter (l : List JVal) (p : JVal → Bool)
    (h : ¬ l.any JVal.nullish = true) : ¬ (l.filter p).any JVal.nullish = true := by
  simp only [List.any_eq_true, not_exists, not_and] at h ⊢
  intro x hx
  exact h x (List.mem_of_mem_filter hx)

/-- The value of `buildTasks` on two arrays. -/
theorem buildTasks_arr (all available : List JVal) :
    buildTasks (.arr all) (.arr available)
      = if available.any JVal.nullish || all.any JVal.nullish then .error typeError
        else .ok ((all.filter keptCategory).map
          (mkTask (available.map (fun x => x.prop "id")))) := by
  by_cases ha : available.any JVal.nullish = true
  · simp [buildTasks, mapIds_eq, ha]
  · by_cases hl : all.any JVal.nullish = true
    · simp [buildTasks, mapIds_eq, filterTasks_eq, ha, hl]
    · have hf := any_nullish_filter all keptCategory hl
      simp [buildTasks, mapIds_eq, filterTasks_eq, mapTasks_eq, ha, hl, hf]

/-- The value of `fetchTasks` when both requests succeed with data arrays. -/
theorem fetchTasks_of_data (env : Env) (token : String) (proxy : Option String)
    (w w1 w2 : World) (body1 body2 : JVal) (all available : List JVal)
    (h1 : requestWithRetry env "get" tasksUrl (getAxiosConfig proxy (some token) true)
      3 2000 w = (w1, some (.success body1)))
    (hd1 : (body1.prop "response").prop "data" = .arr all)
    (h2 : requestWithRetry env "get" userAvailableUrl
      (getAxiosConfig proxy (some token) true) 3 2000 w1 = (w2, some (.success body2)))
    (hd2 : (body2.prop "response").prop "data" = .arr available) :
    fetchTasks env token proxy w
      = if available.any JVal.nullish || all.any JVal.nullish then
          (w2, .error ("Failed: " ++ typeErrorMessage))
        else (w2, .tasks ((all.filter keptCategory).map
          (mkTask (available.map (fun x => x.prop "id"))))) := by
  simp only [fetchTasks, h1, h2, responseData_of_data _ _ _ hd1,
    responseData_of_data _ _ _ hd2, buildTasks_arr]
  by_cases hn : (available.any JVal.nullish || all.any JVal.nullish) = true
  · simp [hn, typeError]
  · simp [hn]

theorem sameValueZero_primitive (x v : JVal) (hv : v.isPrimitive = true) :
    sameValueZero x v = true ↔ x = v := by
  cases v <;> cases x <;> simp [sameValueZero, JVal.isPrimitive] at hv ⊢

theorem arrayIncludes_primitive (xs : List JVal) (v : JVal) (hv : v.isPrimitive = true) :
    arrayIncludes xs v = true ↔ v ∈ xs := by
  simp only [arrayIncludes, List.any_eq_true, sameValueZero_primitive _ _ hv]
  constructor
  · rintro ⟨x, hx, rfl⟩; exact hx
  · intro h; exact ⟨v, h, rfl⟩

theorem keptCategory_iff (entry : JVal) :
    keptCategory entry = true ↔
      entry.prop "task_type" ≠ .str "invite_friend" ∧ entry.prop "task_type" ≠ .str "share_post" := by
  cases h : entry.prop "task_type" <;> simp [keptCategory, h, JVal.isStr]

theorem forall₂_isEntryOf_map (ids : List JVal) (l : List JVal) :
    List.Forall₂ IsEntryOf l (l.map (mkTask ids)) := by
  induction l with
  | nil => exact List.Forall₂.nil
  | cons x l ih =>
    exact List.Forall₂.cons ⟨rfl, rfl, rfl, rfl, rfl, rfl, rfl⟩ ih

theorem arrayIncludes_iff_inIdSet (xs : List JVal) (v : JVal) :
    arrayIncludes xs v = true ↔ InIdSet xs v := by
  by_cases hv : v.isPrimitive = true
  · rw [arrayIncludes_primitive xs v hv]
    exact ⟨fun h => ⟨hv, h⟩, fun h => h.2⟩
  · constructor
    · intro h
      simp only [arrayIncludes, List.any_eq_true] at h
      obtain ⟨x, _, hx⟩ := h
      cases v <;> cases x <;> simp [sameValueZero, JVal.isPrimitive] at hv hx
    · intro h
      exact absurd h.1 hv

theorem mkTask_status (ids : List JVal) (entry : JVal) :
    ((mkTask ids entry).status = "completed" ↔ ¬ InIdSet ids (mkTask ids entry).id) ∧
    ((mkTask ids entry).status = "pending" ↔ InIdSet ids (mkTask ids entry).id) := by
  have hinc := arrayIncludes_iff_inIdSet ids (entry.prop "id")
  by_cases hmem : InIdSet ids (entry.prop "id")
  · have := hinc.mpr hmem
    simp only [mkTask, this, if_true]
    exact ⟨by simp [hmem], by simp [hmem]⟩
  · have : arrayIncludes ids (entry.prop "id") = false := by
      cases hb : arrayIncludes ids (entry.prop "id")
      · rfl
      · exact absurd (hinc.mp hb) hmem
    simp only [mkTask, this]
    exact ⟨by simp [hmem], by simp [hmem]⟩

theorem forall₂_status_map (ids : List JVal) (l : List JVal) :
    List.Forall₂ (fun entry t =>
        t.id = entry.prop "id" ∧
        (t.status = "completed" ↔ ¬ InIdSet ids t.id) ∧
        (t.status = "pending" ↔ InIdSet ids t.id))
      l (l.map (mkTask ids)) := by
  induction l with
  | nil => exact List.Forall₂.nil
  | cons x l ih =>
    exact List.Forall₂.cons ⟨rfl, (mkTask_status ids x).1, (mkTask_status ids x).2⟩ ih

/-- C4. When the catalog request and the user-available request both succeed
with data arrays, every task of the list returned by `fetchTasks` has status
`completed` if and only if its id is not in the set of the ids of the
user-available data, and status `pending` if and only if it is; the returned
list has, in catalog order, one task for each catalog entry kept by the
category filter, with the id of that entry; and a list is returned whenever no
entry of the two arrays is `null`. -/
theorem fetchTasks_status_iff_available (env : Env) (token : String)
    (proxy : Option String) (w w1 w2 : World) (body1 body2 : JVal)
    (all available : List JVal)
    (h1 : requestWithRetry env "get" tasksUrl (getAxiosConfig proxy (some token) true)
      3 2000 w = (w1, some (.success body1)))
    (hd1 : (body1.prop "response").prop "data" = .arr all)
    (h2 : requestWithRetry env "get" userAvailableUrl
      (getAxiosConfig proxy (some token) true) 3 2000 w1 = (w2, some (.success body2)))
    (hd2 : (body2.prop "response").prop "data" = .arr available) :
    (∀ (w' : World) (tasks : List Task),
      fetchTasks env token proxy w = (w', .tasks tasks) →
      (∀ t ∈ tasks,
        (t.status = "completed" ↔ ¬ InIdSet (idsOf available) t.id) ∧
        (t.status = "pending" ↔ InIdSet (idsOf available) t.id)) ∧
      List.Forall₂ (fun entry t =>
          t.id = entry.prop "id" ∧
          (t.status = "completed" ↔ ¬ InIdSet (idsOf available) t.id) ∧
          (t.status = "pending" ↔ InIdSet (idsOf available) t.id))
        (all.filter keptCategory) tasks) ∧
    ((∀ x ∈ all, x.nullish = false) → (∀ x ∈ available, x.nullish = false) →
      ∃ tasks, fetchTasks env token proxy w = (w2, .tasks tasks) ∧
        tasks.length = (all.filter keptCategory).length) := by
  have hval := fetchTasks_of_data env token proxy w w1 w2 body1 body2 all available
    h1 hd1 h2 hd2
  refine ⟨?_, ?_⟩
  · intro w' tasks hret
    rw [hval] at hret
    split at hret
    · simp at hret
    · simp only [Prod.mk.injEq, FetchTasksResult.tasks.injEq] at hret
      obtain ⟨_, rfl⟩ := hret
      refine ⟨?_, forall₂_status_map _ _⟩
      intro t ht
      obtain ⟨x, _, rfl⟩ := List.mem_map.mp ht
      exact mkTask_status _ x
  · intro hall hav
    refine ⟨(all.filter keptCategory).map (mkTask (available.map (fun x => x.prop "id"))),
      ?_, by simp⟩
    rw [hval]
    have : (available.any JVal.nullish || all.any JVal.nullish) = false := by
      simp only [Bool.or_eq_false_iff, List.any_eq_false]
      exact ⟨fun x hx => by simp [hav x hx], fun x hx => by simp [hall x hx]⟩
    simp [this]

/-- C5. When the catalog request and the user-available request both succeed
with data arrays, the list returned by `fetchTasks` holds no task of category
`invite_friend` or `share_post`, and it holds, in catalog order, exactly one
entry for each catalog entry kept by `keptCategory`, which are the catalog
entries of another category; and a list is returned whenever no entry of the
two arrays is `null`. -/
theorem fetchTasks_filters_categories (env : Env) (token : String)
    (proxy : Option String) (w w1 w2 : World) (body1 body2 : JVal)
    (all available : List JVal)
    (h1 : requestWithRetry env "get" tasksUrl (getAxiosConfig proxy (some token) true)
      3 2000 w = (w1, some (.success body1)))
    (hd1 : (body1.prop "response").prop "data" = .arr all)
    (h2 : requestWithRetry env "get" userAvailableUrl
      (getAxiosConfig proxy (some token) true) 3 2000 w1 = (w2, some (.success body2)))
    (hd2 : (body2.prop "response").prop "data" = .arr available) :
    (∀ (w' : World) (tasks : List Task),
      fetchTasks env token proxy w = (w', .tasks tasks) →
      (∀ t ∈ tasks, t.category ≠ .str "invite_friend" ∧ t.category ≠ .str "share_post") ∧
      List.Forall₂ IsEntryOf (all.filter keptCategory) tasks) ∧
    (∀ entry, entry ∈ all.filter keptCategory ↔
      entry ∈ all ∧ entry.prop "task_type" ≠ .str "invite_friend" ∧
        entry.prop "task_type" ≠ .str "share_post") ∧
    ((∀ x ∈ all, x.nullish = false) → (∀ x ∈ available, x.nullish = false) →
      ∃ tasks, fetchTasks env token proxy w = (w2, .tasks tasks)) := by
  have hval := fetchTasks_of_data env token proxy w w1 w2 body1 body2 all available
    h1 hd1 h2 hd2
  refine ⟨?_, ?_, ?_⟩
  · intro w' tasks hret
    rw [hval] at hret
    split at hret
    · simp at hret
    · simp only [Prod.mk.injEq, FetchTasksResult.tasks.injEq] at hret
      obtain ⟨_, rfl⟩ := hret
      refine ⟨?_, forall₂_isEntryOf_map _ _⟩
      intro t ht
      obtain ⟨x, hx, rfl⟩ := List.mem_map.mp ht
      exact (keptCategory_iff x).mp (List.mem_filter.mp hx).2
  · intro entry
    rw [List.mem_filter, keptCategory_iff]
  · intro hall hav
    refine ⟨(all.filter keptCategory).map (mkTask (available.map (fun x => x.prop "id"))), ?_⟩
    rw [hval]
    have : (available.any JVal.nullish || all.any JVal.nullish) = false := by
      simp only [Bool.or_eq_false_iff, List.any_eq_false]
      exact ⟨fun x hx => by simp [hav x hx], fun x hx => by simp [hall x hx]⟩
    simp [this]

theorem sampleEnv_tasks (w : World) :
    requestWithRetry sampleEnv "get" tasksUrl (getAxiosConfig none (some "tok") true)
      3 2000 w
      = (w.emit (.request "get" tasksUrl (getAxiosConfig none (some "tok") true)),
          some (.success (listBody sampleCatalog))) := by
  rfl

theorem sampleEnv_userAvailable (w : World) :
    requestWithRetry sampleEnv "get" userAvailableUrl (getAxiosConfig none (some "tok") true)
      3 2000 w
      = (w.emit (.request "get" userAvailableUrl (getAxiosConfig none (some "tok") true)),
          some (.success (listBody sampleAvailable))) := by
  rfl

/-- C4 at a concrete input: the sample catalog and user-available list. -/
theorem fetchTasks_status_iff_available_witness :
    (∀ (w' : World) (tasks : List Task),
      fetchTasks sampleEnv "tok" none emptyWorld = (w', .tasks tasks) →
      (∀ t ∈ tasks,
        (t.status = "completed" ↔ ¬ InIdSet (idsOf sampleAvailable) t.id) ∧
        (t.status = "pending" ↔ InIdSet (idsOf sampleAvailable) t.id)) ∧
      List.Forall₂ (fun entry t =>
          t.id = entry.prop "id" ∧
          (t.status = "completed" ↔ ¬ InIdSet (idsOf sampleAvailable) t.id) ∧
          (t.status = "pending" ↔ InIdSet (idsOf sampleAvailable) t.id))
        (sampleCatalog.filter keptCategory) tasks) ∧
    ((∀ x ∈ sampleCatalog, x.nullish = false) → (∀ x ∈ sampleAvailable, x.nullish = false) →
      ∃ tasks, fetchTasks sampleEnv "tok" none emptyWorld
        = ((emptyWorld.emit (.request "get" tasksUrl (getAxiosConfig none (some "tok") true))).emit
            (.request "get" userAvailableUrl (getAxiosConfig none (some "tok") true)),
          .tasks tasks) ∧
        tasks.length = (sampleCatalog.filter keptCategory).length) :=
  fetchTasks_status_iff_available sampleEnv "tok" none emptyWorld _ _
    (listBody sampleCatalog) (listBody sampleAvailable) sampleCatalog sampleAvailable
    (sampleEnv_tasks _) rfl (sampleEnv_userAvailable _) rfl

/-- C5 at a concrete input: the sample catalog and user-available list. -/
theorem fetchTasks_filters_categories_witness :
    (∀ (w' : World) (tasks : List Task),
      fetchTasks sampleEnv "tok" none emptyWorld = (w', .tasks tasks) →
      (∀ t ∈ tasks, t.category ≠ .str "invite_friend" ∧ t.category ≠ .str "share_post") ∧
      List.Forall₂ IsEntryOf (sampleCatalog.filter keptCategory) tasks) ∧
    (∀ entry, entry ∈ sampleCatalog.filter keptCategory ↔
      entry ∈ sampleCatalog ∧ entry.prop "task_type" ≠ .str "invite_friend" ∧
        entry.prop "task_type" ≠ .str "share_post") ∧
    ((∀ x ∈ sampleCatalog, x.nullish = false) → (∀ x ∈ sampleAvailable, x.nullish = false) →
      ∃ tasks, fetchTasks sampleEnv "tok" none emptyWorld
        = ((emptyWorld.emit (.request "get" tasksUrl (getAxiosConfig none (some "tok") true))).emit
            (.request "get" userAvailableUrl (getAxiosConfig none (some "tok") true)),
          .tasks tasks)) :=
  fetchTasks_filters_categories sampleEnv "tok" none emptyWorld _ _
    (listBody sampleCatalog) (listBody sampleAvailable) sampleCatalog sampleAvailable
    (sampleEnv_tasks _) rfl (sampleEnv_userAvailable _) rfl

/-! ## `completeTask`: properties -/

theorem endpointOf_none (category : JVal)
    (h1 : category ≠ .str "daily_login") (h2 : category ≠ .str "follow_cryptal")
    (h3 : category ≠ .str "join_discord") (h4 : category ≠ .str "join_waitlist")
    (h5 : category ≠ .str "submit_feedback") : endpointOf category = none := by
  cases category <;> simp_all [endpointOf, JVal.isStr]

theorem endpointOf_some (category : JVal)
    (h : category = .str "daily_login" ∨ category = .str "follow_cryptal" ∨
      category = .str "join_discord" ∨ category = .str "join_waitlist" ∨
      category = .str "submit_feedback") :
    ∃ method url, endpointOf category = some (method, url) := by
  rcases h with h | h | h | h | h <;> subst h <;> exact ⟨_, _, rfl⟩

theorem str_ne_str (a b : String) (h : a ≠ b) : JVal.str a ≠ JVal.str b := by
  intro hab
  exact h (JVal.str.inj hab)

theorem truthy_bool (b : Bool) : (JVal.bool b).truthy = b := rfl

theorem truthy_undefined : JVal.undefined.truthy = false := rfl

/-- The verdict is a success exactly when the outcome is a success whose body
has a truthy `success`, a message string containing `already completed`, or a
message array with the element `already completed`. -/
theorem verdict_success_iff (task : Task) (response : Option RequestOutcome) :
    ∃ result : CompleteResult,
      (match verdict task response with
        | .ok r => r
        | .error e => { success := false, message := "Failed to verify: " ++ e.message })
        = result ∧
      (result.success = true ↔
        ∃ body, response = some (.success body) ∧
          ((body.getOpt "success").truthy = true ∨
            (∃ m, body.getOpt "message" = .str m ∧
              strIncludes m "already completed" = true) ∨
            (∃ xs, body.getOpt "message" = .arr xs ∧
              JVal.str "already completed" ∈ xs))) := by
  refine ⟨_, rfl, ?_⟩
  cases response with
  | none => simp [verdict]
  | some outcome =>
    cases outcome with
    | failure message status =>
      by_cases h404 : status = some 404 <;> simp [verdict, h404]
    | success body =>
      by_cases hs : (body.getOpt "success").truthy = true
      · simp [verdict, hs]
      · cases hmv : body.getOpt "message" with
        | arr xs =>
          have hinc := arrayIncludes_primitive xs (.str "already completed") rfl
          by_cases hmem : JVal.str "already completed" ∈ xs
          · simp [verdict, hs, hmv, includesAlreadyCompleted, truthy_bool, hinc.mpr hmem,
              hmem]
          · have hf : arrayIncludes xs (.str "already completed") = false := by
              cases hb : arrayIncludes xs (.str "already completed")
              · rfl
              · exact absurd (hinc.mp hb) hmem
            simp [verdict, hs, hmv, includesAlreadyCompleted, truthy_bool, hf, hmem]
        | str m =>
          by_cases hinc : strIncludes m "already completed" = true <;>
            simp [verdict, hs, hmv, includesAlreadyCompleted, truthy_bool, hinc]
        | _ => simp [verdict, hs, hmv, includesAlreadyCompleted, truthy_undefined]

/-- C6, as stated, fails when the message is an array, on which `includes`
tests the elements. A `daily_login` task whose request succeeds with the body
`{message: ['already completed']}` is reported as a success, although the body
has no truthy `success` and its message is not a string; and with the body
`{message: ['Task already completed today']}` it is reported as a failure,
although the text of the message contains `already completed`. -/
theorem completeTask_array_message :
    (requestWithRetry (bodyEnv arrayMessageBody) "get" dailyLoginUrl
        (getAxiosConfig none (some "tok") true) 3 2000
        (emptyWorld.emit (.enterCompleteTask sampleLoginTask))).2
      = some (.success arrayMessageBody) ∧
    (completeTask (bodyEnv arrayMessageBody) "tok" sampleLoginTask none emptyWorld).2
      = .ok { success := true
              message := "Task \"daily_login\" completed or already completed" } ∧
    (arrayMessageBody.getOpt "success").truthy = false ∧
    (∀ m, arrayMessageBody.getOpt "message" ≠ .str m) ∧
    (requestWithRetry (bodyEnv arrayTextBody) "get" dailyLoginUrl
        (getAxiosConfig none (some "tok") true) 3 2000
        (emptyWorld.emit (.enterCompleteTask sampleLoginTask))).2
      = some (.success arrayTextBody) ∧
    (completeTask (bodyEnv arrayTextBody) "tok" sampleLoginTask none emptyWorld).2
      = .ok { success := false, message := "Failed: Task already completed today" } ∧
    strIncludes (toJsString (arrayTextBody.getOpt "message")) "already completed" = true := by
  refine ⟨rfl, rfl, rfl, ?_, rfl, rfl, by decide⟩
  intro m h
  cases h

/-- C6, amended. For a task of one of the five supported categories,
`completeTask` returns a success result if and only if the request of the
category is made (`task.id` has a `slice`) and the request executor returned a
success outcome whose body has a truthy `success` field, or a message that is
a string containing `already completed`, or a message that is an array with the
element `already completed`; when the request is made, the call returns a
result and leaves the world as the executor left it. -/
theorem completeTask_success_iff (env : Env) (token : String) (task : Task)
    (proxy : Option String) (w : World)
    (hcat : task.category = .str "daily_login" ∨ task.category = .str "follow_cryptal" ∨
      task.category = .str "join_discord" ∨ task.category = .str "join_waitlist" ∨
      task.category = .str "submit_feedback") :
    ∃ (method url : String),
      endpointOf task.category = some (method, url) ∧
      (sliceable task.id = true →
        ∃ result : CompleteResult,
          completeTask env token task proxy w
            = ((requestWithRetry env method url (getAxiosConfig proxy (some token) true)
                3 2000 (w.emit (.enterCompleteTask task))).1, .ok result)) ∧
      (returnedSuccess (completeTask env token task proxy w).2 = true ↔
        sliceable task.id = true ∧
        ∃ body,
          (requestWithRetry env method url (getAxiosConfig proxy (some token) true) 3 2000
            (w.emit (.enterCompleteTask task))).2 = some (.success body) ∧
          ((body.getOpt "success").truthy = true ∨
            (∃ m, body.getOpt "message" = .str m ∧
              strIncludes m "already completed" = true) ∨
            (∃ xs, body.getOpt "message" = .arr xs ∧
              JVal.str "already completed" ∈ xs))) := by
  obtain ⟨method, url, hend⟩ := endpointOf_some task.category hcat
  obtain ⟨result, hres, hiff⟩ := verdict_success_iff task
    (requestWithRetry env method url (getAxiosConfig proxy (some token) true) 3 2000
      (w.emit (.enterCompleteTask task))).2
  have hrun : sliceable task.id = true →
      completeTask env token task proxy w
        = ((requestWithRetry env method url (getAxiosConfig proxy (some token) true) 3 2000
            (w.emit (.enterCompleteTask task))).1, .ok result) := by
    intro hs
    rw [← hres]
    simp only [completeTask, hs, hend]
    cases verdict task
      (requestWithRetry env method url (getAxiosConfig proxy (some token) true) 3 2000
        (w.emit (.enterCompleteTask task))).2 <;> simp
  refine ⟨method, url, hend, fun hs => ⟨result, hrun hs⟩, ?_⟩
  by_cases hs : sliceable task.id = true
  · rw [hrun hs]
    simp only [returnedSuccess, hs, true_and]
    exact hiff
  · have hraise : (completeTask env token task proxy w).2 = .error typeError := by
      simp [completeTask, hs]
    rw [hraise]
    simp [returnedSuccess, hs]

/-- C7. For a task with a string id whose category is none of the five
supported ones, `completeTask` returns
`{success: false, message: 'Skipped: <category> not supported'}` and issues no
HTTP call. -/
theorem completeTask_unknown_category (env : Env) (token : String) (task : Task)
    (proxy : Option String) (w : World) (id : String) (hid : task.id = .str id)
    (h1 : task.category ≠ .str "daily_login") (h2 : task.category ≠ .str "follow_cryptal")
    (h3 : task.category ≠ .str "join_discord") (h4 : task.category ≠ .str "join_waitlist")
    (h5 : task.category ≠ .str "submit_feedback") :
    ∃ new : List Event,
      completeTask env token task proxy w
        = ({ trace := w.trace ++ new },
            .ok { success := false
                  message := "Skipped: " ++ toJsString task.category ++ " not supported" }) ∧
      requestCount new = 0 := by
  refine ⟨[.enterCompleteTask task], ?_, ?_⟩
  · simp [completeTask, hid, sliceable, endpointOf_none task.category h1 h2 h3 h4 h5,
      World.emit]
  · simp [requestCount, Event.isRequest]

/-- C6, amended, at a concrete input: a `daily_login` task whose request is
answered by `{success: false, message: 'Task already completed today'}`. -/
theorem completeTask_success_iff_witness :
    ∃ (method url : String),
      endpointOf sampleLoginTask.category = some (method, url) ∧
      (sliceable sampleLoginTask.id = true →
        ∃ result : CompleteResult,
          completeTask alreadyCompletedEnv "tok" sampleLoginTask none emptyWorld
            = ((requestWithRetry alreadyCompletedEnv method url
                (getAxiosConfig none (some "tok") true) 3 2000
                (emptyWorld.emit (.enterCompleteTask sampleLoginTask))).1, .ok result)) ∧
      (returnedSuccess
          (completeTask alreadyCompletedEnv "tok" sampleLoginTask none emptyWorld).2 = true ↔
        sliceable sampleLoginTask.id = true ∧
        ∃ body,
          (requestWithRetry alreadyCompletedEnv method url
            (getAxiosConfig none (some "tok") true) 3 2000
            (emptyWorld.emit (.enterCompleteTask sampleLoginTask))).2 = some (.success body) ∧
          ((body.getOpt "success").truthy = true ∨
            (∃ m, body.getOpt "message" = .str m ∧
              strIncludes m "already completed" = true) ∨
            (∃ xs, body.getOpt "message" = .arr xs ∧
              JVal.str "already completed" ∈ xs))) :=
  completeTask_success_iff alreadyCompletedEnv "tok" sampleLoginTask none emptyWorld
    (Or.inl rfl)

/-- A body with `success: false` and a message containing `already completed`
yields a success result. -/
theorem completeTask_already_completed :
    (completeTask alreadyCompletedEnv "tok" sampleLoginTask none emptyWorld).2
      = .ok { success := true, message := "Task \"daily_login\" completed or already completed" } := by
  rfl

/-- C7 at a concrete input: a task of category `watch_video`. -/
theorem completeTask_unknown_category_witness :
    ∃ new : List Event,
      completeTask sampleEnv "tok" sampleVideoTask none emptyWorld
        = ({ trace := emptyWorld.trace ++ new },
            .ok { success := false
                  message := "Skipped: " ++ toJsString sampleVideoTask.category
                    ++ " not supported" }) ∧
      requestCount new = 0 :=
  completeTask_unknown_category sampleEnv "tok" sampleVideoTask none emptyWorld "t-video" rfl
    (str_ne_str _ _ (by decide)) (str_ne_str _ _ (by decide)) (str_ne_str _ _ (by decide))
    (str_ne_str _ _ (by decide)) (str_ne_str _ _ (by decide))

/-! ## Which events the operations add -/

theorem OnlyEvents.refl (P : Event → Prop) (w : World) : OnlyEvents P w w :=
  ⟨[], by simp, by simp⟩

theorem OnlyEvents.trans {P : Event → Prop} {w₁ w₂ w₃ : World}
    (h₁ : OnlyEvents P w₁ w₂) (h₂ : OnlyEvents P w₂ w₃) : OnlyEvents P w₁ w₃ := by
  obtain ⟨n₁, e₁, p₁⟩ := h₁
  obtain ⟨n₂, e₂, p₂⟩ := h₂
  refine ⟨n₁ ++ n₂, by rw [e₂, e₁, List.append_assoc], ?_⟩
  intro e he
  rcases List.mem_append.mp he with h | h
  · exact p₁ e h
  · exact p₂ e h

theorem OnlyEvents.mono {P Q : Event → Prop} {w₁ w₂ : World} (hPQ : ∀ e, P e → Q e)
    (h : OnlyEvents P w₁ w₂) : OnlyEvents Q w₁ w₂ := by
  obtain ⟨n, e, p⟩ := h
  exact ⟨n, e, fun x hx => hPQ x (p x hx)⟩

theorem OnlyEvents.emit {P : Event → Prop} (w : World) (e : Event) (h : P e) :
    OnlyEvents P w (w.emit e) :=
  ⟨[e], rfl, by simpa using h⟩

theorem onlyEvents_delay {P : Event → Prop} (w : World) (seconds : JsNum)
    (h : ∀ ms, P (.wait ms)) : OnlyEvents P w (delay seconds w) :=
  OnlyEvents.emit w _ (h _)

theorem attempt_onlyEvents (env : Env) (method url : String) (config : AxiosConfig)
    (w : World) : OnlyEvents (IsRetryEvent url) w (attempt env method url config w).1 := by
  unfold attempt
  split
  · exact OnlyEvents.emit w _ (Or.inl ⟨_, _, rfl⟩)
  · split
    · exact OnlyEvents.emit w _ (Or.inl ⟨_, _, rfl⟩)
    · exact OnlyEvents.refl _ w

theorem requestWithRetryFrom_onlyEvents (env : Env) (method url : String)
    (config : AxiosConfig) (retries : Nat) :
    ∀ (fuel i : Nat) (b : JsNum) (w : World),
      OnlyEvents (IsRetryEvent url) w
        (requestWithRetryFrom env method url config retries fuel i b w).1 := by
  intro fuel
  induction fuel with
  | zero => intro i b w; exact OnlyEvents.refl _ w
  | succ f ih =>
    intro i b w
    have hatt := attempt_onlyEvents env method url config w
    simp only [requestWithRetryFrom]
    split
    · cases hres : attempt env method url config w with
      | mk w1 r =>
        rw [hres] at hatt
        cases r with
        | ok data => exact hatt
        | error error =>
          simp only
          split
          · exact hatt.trans ((onlyEvents_delay w1 _ (fun ms => Or.inr ⟨ms, rfl⟩)).trans
              (ih (i + 1) (b.scale 3 2) _))
          · split <;> exact hatt
    · exact OnlyEvents.refl _ w

theorem requestWithRetry_onlyEvents (env : Env) (method url : String)
    (config : AxiosConfig) (retries : Nat) (b : JsNum) (w : World) :
    OnlyEvents (IsRetryEvent url) w (requestWithRetry env method url config retries b w).1 :=
  requestWithRetryFrom_onlyEvents env method url config retries retries 0 b w

theorem enteredTasks_append (l₁ l₂ : List Event) :
    enteredTasks (l₁ ++ l₂) = enteredTasks l₁ ++ enteredTasks l₂ := by
  simp [enteredTasks, List.filterMap_append]

theorem enteredTasks_of_retryEvents (url : String) (new : List Event)
    (h : ∀ e ∈ new, IsRetryEvent url e) : enteredTasks new = [] := by
  induction new with
  | nil => rfl
  | cons e l ih =>
    have he := h e (List.mem_cons_self _ _)
    have hl := ih (fun x hx => h x (List.mem_cons_of_mem _ hx))
    rcases he with ⟨verb, config, rfl⟩ | ⟨ms, rfl⟩
    · simpa [enteredTasks, Event.enteredTask] using hl
    · simpa [enteredTasks, Event.enteredTask] using hl

theorem enteredTasks_wait (ms : JsNum) : enteredTasks [Event.wait ms] = [] := rfl

/-- The events `completeTask` adds: the marker of its being entered, then only
HTTP calls and waits. -/
theorem completeTask_trace (env : Env) (token : String) (task : Task)
    (proxy : Option String) (w : World) :
    ∃ new : List Event,
      (completeTask env token task proxy w).1.trace
        = w.trace ++ Event.enterCompleteTask task :: new ∧
      enteredTasks new = [] := by
  unfold completeTask
  simp only
  split
  · exact ⟨[], by simp [World.emit], rfl⟩
  · split
    · exact ⟨[], by simp [World.emit], rfl⟩
    · rename_i method url _
      obtain ⟨new, hnew, hp⟩ := requestWithRetry_onlyEvents env method url
        (getAxiosConfig proxy (some token) true) 3 2000 (w.emit (.enterCompleteTask task))
      refine ⟨new, ?_, enteredTasks_of_retryEvents url new hp⟩
      cases hres : requestWithRetry env method url (getAxiosConfig proxy (some token) true)
          3 2000 (w.emit (.enterCompleteTask task)) with
      | mk w1 response =>
        rw [hres] at hnew
        simp only at hnew
        cases verdict task response <;> simp [hnew, World.emit]

/-! ## The task loop of `processAccount`: properties -/

/-- Whether the iteration for `task`, started in world `w`, calls
`completeTask` and gets a success. -/
theorem taskStep_world (env : Env) (token : String) (proxy : Option String) (task : Task)
    (c s : Nat) (w : World) :
    (taskStep env token proxy task c s w).1
      = if task.status = "pending" then (completeTask env token task proxy w).1 else w := by
  unfold taskStep
  split
  · cases hres : completeTask env token task proxy w with
    | mk w1 r =>
      cases r with
      | error e => rfl
      | ok result =>
        simp only
        split
        · rfl
        · split <;> rfl
  · rfl

theorem taskStep_status (env : Env) (token : String) (proxy : Option String) (task : Task)
    (c s : Nat) (w : World) :
    (taskStep env token proxy task c s w).2.task.status
      = if task.status = "pending" ∧
            returnedSuccess (completeTask env token task proxy w).2 = true
        then "completed" else task.status := by
  unfold taskStep
  by_cases hp : task.status = "pending"
  · simp only [hp, if_true, true_and]
    cases hres : completeTask env token task proxy w with
    | mk w1 r =>
      cases r with
      | error e => simp [returnedSuccess, hp]
      | ok result =>
        by_cases hs : result.success = true
        · simp [returnedSuccess, hs]
        · by_cases hk : strIncludes result.message "Skipped" = true <;>
            simp [returnedSuccess, hs, hk, hp]
  · simp [hp]

theorem taskStep_completed (env : Env) (token : String) (proxy : Option String)
    (task : Task) (c s : Nat) (w : World) :
    (taskStep env token proxy task c s w).2.completedTasks
      = c + if task.status = "pending" ∧
            returnedSuccess (completeTask env token task proxy w).2 = true
          then 1 else 0 := by
  unfold taskStep
  by_cases hp : task.status = "pending"
  · simp only [hp, if_true, true_and]
    cases hres : completeTask env token task proxy w with
    | mk w1 r =>
      cases r with
      | error e => simp [returnedSuccess]
      | ok result =>
        by_cases hs : result.success = true
        · simp [returnedSuccess, hs]
        · by_cases hk : strIncludes result.message "Skipped" = true <;>
            simp [returnedSuccess, hs, hk]
  · simp [hp]

theorem taskLoop_cons (env : Env) (token : String) (proxy : Option String) (task : Task)
    (rest : List Task) (c s : Nat) (w : World) :
    taskLoop env token proxy (task :: rest) c s w
      = ((taskLoop env token proxy rest (taskStep env token proxy task c s w).2.completedTasks
            (taskStep env token proxy task c s w).2.skippedTasks
            (delay 2 (taskStep env token proxy task c s w).1)).1,
          (taskStep env token proxy task c s w).2.task ::
            (taskLoop env token proxy rest (taskStep env token proxy task c s w).2.completedTasks
              (taskStep env token proxy task c s w).2.skippedTasks
              (delay 2 (taskStep env token proxy task c s w).1)).2.1,
          (taskLoop env token proxy rest (taskStep env token proxy task c s w).2.completedTasks
            (taskStep env token proxy task c s w).2.skippedTasks
            (delay 2 (taskStep env token proxy task c s w).1)).2.2) := by
  simp only [taskLoop]

/-- The world the loop leaves does not depend on the counters. -/
theorem taskLoop_world_counters (env : Env) (token : String) (proxy : Option String) :
    ∀ (tasks : List Task) (c s c' s' : Nat) (w : World),
      (taskLoop env token proxy tasks c s w).1 = (taskLoop env token proxy tasks c' s' w).1 := by
  intro tasks
  induction tasks with
  | nil => intro c s c' s' w; rfl
  | cons task rest ih =>
    intro c s c' s' w
    rw [taskLoop_cons, taskLoop_cons]
    simp only
    rw [taskStep_world env token proxy task c s w, taskStep_world env token proxy task c' s' w]
    exact ih _ _ _ _ _

theorem callSucceeded_zero (env : Env) (token : String) (proxy : Option String)
    (task : Task) (rest : List Task) (w : World) :
    callSucceeded env token proxy (task :: rest) w 0
      = (decide (task.status = "pending") &&
          returnedSuccess (completeTask env token task proxy w).2) := by
  simp [callSucceeded, worldBefore, taskLoop]

theorem callSucceeded_succ (env : Env) (token : String) (proxy : Option String)
    (task : Task) (rest : List Task) (c s : Nat) (w : World) (i : Nat) :
    callSucceeded env token proxy (task :: rest) w (i + 1)
      = callSucceeded env token proxy rest
          (delay 2 (taskStep env token proxy task c s w).1) i := by
  have hw : worldBefore env token proxy (task :: rest) w (i + 1)
      = worldBefore env token proxy rest (delay 2 (taskStep env token proxy task c s w).1) i := by
    simp only [worldBefore, List.take_succ_cons]
    rw [taskLoop_cons]
    simp only
    rw [taskStep_world env token proxy task 0 0 w, taskStep_world env token proxy task c s w]
    exact taskLoop_world_counters env token proxy _ _ _ _ _ _
  simp only [callSucceeded, List.getElem?_cons_succ, hw]

theorem length_filter_range_succ (f : Nat → Bool) (n : Nat) :
    ((List.range (n + 1)).filter f).length
      = (if f 0 = true then 1 else 0) + ((List.range n).filter (fun i => f (i + 1))).length := by
  rw [List.range_succ_eq_map, List.filter_cons, List.filter_map]
  by_cases h : f 0 = true
  · simp [h, Function.comp_def]; omega
  · simp [h, Function.comp_def]

/-- The task loop, from any counters: the calls of `completeTask`, the
statuses after the loop and the completed counter. -/
theorem taskLoop_spec (env : Env) (token : String) (proxy : Option String) :
    ∀ (tasks : List Task) (c s : Nat) (w : World),
      (∃ new : List Event,
        (taskLoop env token proxy tasks c s w).1.trace = w.trace ++ new ∧
        enteredTasks new = tasks.filter (fun t => decide (t.status = "pending"))) ∧
      (taskLoop env token proxy tasks c s w).2.1.length = tasks.length ∧
      (∀ (i : Nat) (t t' : Task), tasks[i]? = some t →
        (taskLoop env token proxy tasks c s w).2.1[i]? = some t' →
        (t'.status = "completed" ↔
          t.status = "completed" ∨ callSucceeded env token proxy tasks w i = true)) ∧
      (taskLoop env token proxy tasks c s w).2.2.1
        = c + ((List.range tasks.length).filter
            (callSucceeded env token proxy tasks w)).length := by
  intro tasks
  induction tasks with
  | nil =>
    intro c s w
    refine ⟨⟨[], by simp [taskLoop], rfl⟩, rfl, ?_, by simp [taskLoop]⟩
    intro i t t' h
    simp at h
  | cons task rest ih =>
    intro c s w
    obtain ⟨⟨new, htrace, hentered⟩, hlen, hstat, hcount⟩ :=
      ih (taskStep env token proxy task c s w).2.completedTasks
        (taskStep env token proxy task c s w).2.skippedTasks
        (delay 2 (taskStep env token proxy task c s w).1)
    rw [taskLoop_cons]
    refine ⟨?_, ?_, ?_, ?_⟩
    · simp only
      rw [htrace, taskStep_world]
      by_cases hp : task.status = "pending"
      · obtain ⟨cnew, hc, hcent⟩ := completeTask_trace env token task proxy w
        refine ⟨(Event.enterCompleteTask task :: cnew) ++ [Event.wait ((2 : JsNum).scale 1000 1)] ++ new, ?_, ?_⟩
        · simp [hp, delay, World.emit, hc]
        · rw [enteredTasks_append, enteredTasks_append, hentered]
          simp [enteredTasks, Event.enteredTask, hp] at hcent ⊢
          exact hcent
      · refine ⟨[Event.wait ((2 : JsNum).scale 1000 1)] ++ new, ?_, ?_⟩
        · simp [hp, delay, World.emit]
        · rw [enteredTasks_append, hentered]
          simp [enteredTasks, Event.enteredTask, hp]
    · simp [hlen]
    · intro i t t' ht ht'
      cases i with
      | zero =>
        simp only [List.getElem?_cons_zero, Option.some.injEq] at ht ht'
        subst ht
        subst ht'
        rw [taskStep_status, callSucceeded_zero]
        by_cases hp : task.status = "pending"
        · by_cases hs : returnedSuccess (completeTask env token task proxy w).2 = true
          · simp [hp, hs]
          · simp [hp, hs]
        · simp [hp]
      | succ i =>
        simp only [List.getElem?_cons_succ] at ht ht'
        rw [callSucceeded_succ env token proxy task rest c s w i]
        exact hstat i t t' ht ht'
    · simp only
      rw [hcount, taskStep_completed, List.length_cons, length_filter_range_succ,
        callSucceeded_zero]
      have hfun : (fun i => callSucceeded env token proxy (task :: rest) w (i + 1))
          = callSucceeded env token proxy rest
              (delay 2 (taskStep env token proxy task c s w).1) := by
        funext i
        exact callSucceeded_succ env token proxy task rest c s w i
      rw [hfun]
      by_cases hp : task.status = "pending"
      · by_cases hs : returnedSuccess (completeTask env token task proxy w).2 = true
        · simp [hp, hs]; omega
        · simp [hp, hs]
      · simp [hp]

/-- C8. In the task loop of `processAccount`, `completeTask` is entered exactly
once for each task fetched as `pending`, in fetched order, and never for
another task; after the loop a task has status `completed` if and only if it
was fetched as `completed` or its completion call returned success; and the
completed counter is the number of completion calls that returned success. -/
theorem taskLoop_calls_statuses_counter (env : Env) (token : String)
    (proxy : Option String) (tasks : List Task) (w : World) :
    (∃ new : List Event,
      (taskLoop env token proxy tasks 0 0 w).1.trace = w.trace ++ new ∧
      enteredTasks new = tasks.filter (fun t => decide (t.status = "pending"))) ∧
    (taskLoop env token proxy tasks 0 0 w).2.1.length = tasks.length ∧
    (∀ (i : Nat) (t t' : Task), tasks[i]? = some t →
      (taskLoop env token proxy tasks 0 0 w).2.1[i]? = some t' →
      (t'.status = "completed" ↔
        t.status = "completed" ∨ callSucceeded env token proxy tasks w i = true)) ∧
    (taskLoop env token proxy tasks 0 0 w).2.2.1
      = ((List.range tasks.length).filter (callSucceeded env token proxy tasks w)).length := by
  have h := taskLoop_spec env token proxy tasks 0 0 w
  simpa using h

/-- The scenario of the sample catalog: the fetched statuses are `pending`
and `completed`, one completion call is made, for the `daily_login` task, and
both tasks end `completed` with a counter of one. -/
theorem taskLoop_sample :
    sampleTasks.map (fun t => t.status) = ["pending", "completed"] ∧
    (taskLoop sampleEnv "tok" none sampleTasks 0 0 emptyWorld).2.1.map (fun t => t.status)
      = ["completed", "completed"] ∧
    (taskLoop sampleEnv "tok" none sampleTasks 0 0 emptyWorld).2.2.1 = 1 ∧
    (enteredTasks (taskLoop sampleEnv "tok" none sampleTasks 0 0 emptyWorld).1.trace).map
      (fun t => toJsString t.category) = ["daily_login"] := by
  refine ⟨by decide, by decide, by decide, by decide⟩

/-! ## `processAccount` when `fetchTasks` fails -/

theorem fetchUserInfo_world (env : Env) (token : String) (proxy : Option String)
    (w : World) :
    (fetchUserInfo env token proxy w).1
      = (requestWithRetry env "get" profilesUrl (getAxiosConfig proxy (some token) true)
          3 2000 w).1 := by
  unfold fetchUserInfo
  cases hr : requestWithRetry env "get" profilesUrl (getAxiosConfig proxy (some token) true)
      3 2000 w with
  | mk w1 r =>
    cases r with
    | none => rfl
    | some outcome =>
      cases outcome with
      | failure message status => rfl
      | success body =>
        simp only
        split
        · rfl
        · split
          · rfl
          · split <;> rfl
          · rfl

theorem getPublicIP_world (env : Env) (proxy : Option String) (w : World) :
    (getPublicIP env proxy w).1
      = (requestWithRetry env "get" ipifyUrl (getAxiosConfig proxy none false) 3 2000 w).1 := by
  unfold getPublicIP
  cases hr : requestWithRetry env "get" ipifyUrl (getAxiosConfig proxy none false) 3 2000 w with
  | mk w1 r =>
    cases r with
    | none => rfl
    | some outcome =>
      cases outcome with
      | failure message status => rfl
      | success body =>
        simp only
        split <;> rfl

theorem fetchTasks_onlyEvents (env : Env) (token : String) (proxy : Option String)
    (w : World) :
    OnlyEvents (fun e => IsRetryEvent tasksUrl e ∨ IsRetryEvent userAvailableUrl e) w
      (fetchTasks env token proxy w).1 := by
  have h1 := (requestWithRetry_onlyEvents env "get" tasksUrl
    (getAxiosConfig proxy (some token) true) 3 2000 w).mono
    (Q := fun e => IsRetryEvent tasksUrl e ∨ IsRetryEvent userAvailableUrl e)
    (fun e he => Or.inl he)
  unfold fetchTasks
  cases hr1 : requestWithRetry env "get" tasksUrl (getAxiosConfig proxy (some token) true)
      3 2000 w with
  | mk w1 r1 =>
    rw [hr1] at h1
    simp only
    cases responseData r1 "Failed to fetch full task list" with
    | error e => exact h1
    | ok allTasks =>
      have h2 := (requestWithRetry_onlyEvents env "get" userAvailableUrl
        (getAxiosConfig proxy (some token) true) 3 2000 w1).mono
        (Q := fun e => IsRetryEvent tasksUrl e ∨ IsRetryEvent userAvailableUrl e)
        (fun e he => Or.inr he)
      simp only
      cases hr2 : requestWithRetry env "get" userAvailableUrl
          (getAxiosConfig proxy (some token) true) 3 2000 w1 with
      | mk w2 r2 =>
        rw [hr2] at h2
        simp only
        cases responseData r2 "Failed to fetch user-available tasks" with
        | error e => exact h1.trans h2
        | ok userAvailable =>
          simp only
          cases buildTasks allTasks userAvailable <;> exact h1.trans h2

theorem truthy_not_nullish (v : JVal) (h : v.truthy = true) : v.nullish = false := by
  cases v <;> simp_all [JVal.truthy, JVal.nullish]

theorem responseData_error_of_lacksData (r : Option RequestOutcome) (failMessage : String)
    (h : lacksData r = true) : ∃ e, responseData r failMessage = .error e := by
  cases r with
  | none => simp [lacksData] at h
  | some outcome =>
    cases outcome with
    | failure message status => exact ⟨_, rfl⟩
    | success body =>
      simp only [lacksData, Bool.or_eq_true, Bool.not_eq_true'] at h
      by_cases hb : body.truthy = true
      · by_cases hi : (body.prop "response").truthy = true
        · by_cases hd : ((body.prop "response").prop "data").truthy = true
          · simp [hb, hi, hd] at h
          · simp [responseData, hb, hi, hd, JVal.get, truthy_not_nullish _ hb,
              truthy_not_nullish _ hi]
        · simp [responseData, hb, hi, JVal.get, truthy_not_nullish _ hb]
      · simp [responseData, hb]

/-- When one of the two task GETs lacks its data, `fetchTasks` returns an
error result. -/
theorem fetchTasks_error_of_lacksData (env : Env) (token : String) (proxy : Option String)
    (w : World)
    (hfail :
      lacksData (requestWithRetry env "get" tasksUrl
        (getAxiosConfig proxy (some token) true) 3 2000 w).2 = true ∨
      lacksData (requestWithRetry env "get" userAvailableUrl
        (getAxiosConfig proxy (some token) true) 3 2000
        (requestWithRetry env "get" tasksUrl
          (getAxiosConfig proxy (some token) true) 3 2000 w).1).2 = true) :
    ∃ message, (fetchTasks env token proxy w).2 = .error message := by
  unfold fetchTasks
  cases hr1 : requestWithRetry env "get" tasksUrl (getAxiosConfig proxy (some token) true)
      3 2000 w with
  | mk w1 r1 =>
    rw [hr1] at hfail
    simp only at hfail ⊢
    cases hd1 : responseData r1 "Failed to fetch full task list" with
    | error e => exact ⟨_, rfl⟩
    | ok allTasks =>
      have h2 : lacksData (requestWithRetry env "get" userAvailableUrl
          (getAxiosConfig proxy (some token) true) 3 2000 w1).2 = true := by
        rcases hfail with h | h
        · obtain ⟨e, he⟩ := responseData_error_of_lacksData r1
            "Failed to fetch full task list" h
          rw [he] at hd1
          cases hd1
        · exact h
      simp only
      cases hr2 : requestWithRetry env "get" userAvailableUrl
          (getAxiosConfig proxy (some token) true) 3 2000 w1 with
      | mk w2 r2 =>
        rw [hr2] at h2
        obtain ⟨e, he⟩ := responseData_error_of_lacksData r2
          "Failed to fetch user-available tasks" h2
        simp only [he]
        exact ⟨_, rfl⟩

theorem processAccount_of_fetch_error (env : Env) (token : String) (index total : Nat)
    (proxy : Option String) (w : World) (message : String)
    (h : (fetchTasks env token proxy (tasksPhaseStart env token index total proxy w)).2
      = .error message) :
    processAccount env token index total proxy w
      = (fetchTasks env token proxy (tasksPhaseStart env token index total proxy w)).1 := by
  unfold processAccount
  simp only [tasksPhaseStart] at h ⊢
  cases hu : fetchUserInfo env token proxy
      (w.emit (.enterProcessAccount token index total proxy)) with
  | mk w1 username =>
    rw [hu] at h
    simp only at h ⊢
    cases hi : getPublicIP env proxy w1 with
    | mk w2 ip =>
      rw [hi] at h
      simp only at h ⊢
      cases hf : fetchTasks env token proxy w2 with
      | mk w3 result =>
        rw [hf] at h
        simp only at h
        subst h
        rfl

theorem tasksPhase_onlyEvents (env : Env) (token : String) (index total : Nat)
    (proxy : Option String) (w : World) :
    OnlyEvents IsFetchPhaseEvent w
      (fetchTasks env token proxy (tasksPhaseStart env token index total proxy w)).1 := by
  have h0 : OnlyEvents IsFetchPhaseEvent w
      (w.emit (.enterProcessAccount token index total proxy)) :=
    OnlyEvents.emit w _ (Or.inl ⟨_, _, _, _, rfl⟩)
  have h1 : OnlyEvents IsFetchPhaseEvent
      (w.emit (.enterProcessAccount token index total proxy))
      (fetchUserInfo env token proxy
        (w.emit (.enterProcessAccount token index total proxy))).1 := by
    rw [fetchUserInfo_world]
    exact (requestWithRetry_onlyEvents env "get" profilesUrl _ 3 2000 _).mono
      (fun e he => Or.inr (Or.inl he))
  have h2 : OnlyEvents IsFetchPhaseEvent
      (fetchUserInfo env token proxy
        (w.emit (.enterProcessAccount token index total proxy))).1
      (tasksPhaseStart env token index total proxy w) := by
    rw [tasksPhaseStart, getPublicIP_world]
    exact (requestWithRetry_onlyEvents env "get" ipifyUrl _ 3 2000 _).mono
      (fun e he => Or.inr (Or.inr (Or.inl he)))
  have h3 : OnlyEvents IsFetchPhaseEvent (tasksPhaseStart env token index total proxy w)
      (fetchTasks env token proxy (tasksPhaseStart env token index total proxy w)).1 :=
    (fetchTasks_onlyEvents env token proxy _).mono
      (fun e he => he.elim (fun h => Or.inr (Or.inr (Or.inr (Or.inl h))))
        (fun h => Or.inr (Or.inr (Or.inr (Or.inr h)))))
  exact h0.trans (h1.trans (h2.trans h3))

theorem not_stats_of_retryEvent (url : String) (hurl : url ≠ statsUrl) (e : Event)
    (h : IsRetryEvent url e) (verb : String) (config : AxiosConfig) :
    e ≠ .request verb statsUrl config := by
  rcases h with ⟨v, c, rfl⟩ | ⟨ms, rfl⟩
  · intro heq
    injection heq with _ hu _
    exact hurl hu
  · intro heq
    cases heq

theorem fetchPhaseEvent_not_stats (e : Event) (h : IsFetchPhaseEvent e) (verb : String)
    (config : AxiosConfig) : e ≠ .request verb statsUrl config := by
  rcases h with ⟨t, i, n, p, rfl⟩ | h | h | h | h
  · intro heq; cases heq
  · exact not_stats_of_retryEvent _ (by decide) e h verb config
  · exact not_stats_of_retryEvent _ (by decide) e h verb config
  · exact not_stats_of_retryEvent _ (by decide) e h verb config
  · exact not_stats_of_retryEvent _ (by decide) e h verb config

theorem enteredTasks_of_fetchPhase (new : List Event)
    (h : ∀ e ∈ new, IsFetchPhaseEvent e) : enteredTasks new = [] := by
  induction new with
  | nil => rfl
  | cons e l ih =>
    have he := h e (List.mem_cons_self _ _)
    have hl := ih (fun x hx => h x (List.mem_cons_of_mem _ hx))
    have hnone : e.enteredTask = none := by
      rcases he with ⟨t, i, n, p, rfl⟩ | h | h | h | h
      · rfl
      all_goals
        rcases h with ⟨v, c, rfl⟩ | ⟨ms, rfl⟩ <;> rfl
    simpa [enteredTasks, hnone] using hl

/-- C9. When one of the two task GETs of an account fails or returns a body
without the expected data, `fetchTasks` returns an error result and
`processAccount` ends right there: the events it adds are the marker of its
being entered, HTTP calls to the profile, IP lookup, catalog and
user-available endpoints, and waits; `completeTask` is never entered and no
request goes to the statistics endpoint. -/
theorem processAccount_stops_on_fetch_failure (env : Env) (token : String)
    (index total : Nat) (proxy : Option String) (w : World)
    (hfail :
      lacksData (requestWithRetry env "get" tasksUrl
        (getAxiosConfig proxy (some token) true) 3 2000
        (tasksPhaseStart env token index total proxy w)).2 = true ∨
      lacksData (requestWithRetry env "get" userAvailableUrl
        (getAxiosConfig proxy (some token) true) 3 2000
        (requestWithRetry env "get" tasksUrl
          (getAxiosConfig proxy (some token) true) 3 2000
          (tasksPhaseStart env token index total proxy w)).1).2 = true) :
    (∃ message,
      (fetchTasks env token proxy (tasksPhaseStart env token index total proxy w)).2
        = .error message) ∧
    processAccount env token index total proxy w
      = (fetchTasks env token proxy (tasksPhaseStart env token index total proxy w)).1 ∧
    ∃ new : List Event,
      (processAccount env token index total proxy w).trace = w.trace ++ new ∧
      (∀ e ∈ new, IsFetchPhaseEvent e) ∧
      enteredTasks new = [] ∧
      ∀ verb config, Event.request verb statsUrl config ∉ new := by
  obtain ⟨message, hmsg⟩ := fetchTasks_error_of_lacksData env token proxy
    (tasksPhaseStart env token index total proxy w) hfail
  have hpa := processAccount_of_fetch_error env token index total proxy w message hmsg
  obtain ⟨new, htrace, hnew⟩ := tasksPhase_onlyEvents env token index total proxy w
  refine ⟨⟨message, hmsg⟩, hpa, new, by rw [hpa, htrace], hnew,
    enteredTasks_of_fetchPhase new hnew, ?_⟩
  intro verb config hmem
  exact fetchPhaseEvent_not_stats _ (hnew _ hmem) verb config rfl

/-- C9 at a concrete input: an account all of whose requests fail. -/
theorem processAccount_stops_on_fetch_failure_witness :
    (∃ message,
      (fetchTasks failingEnv "tok" none (tasksPhaseStart failingEnv "tok" 0 1 none emptyWorld)).2
        = .error message) ∧
    processAccount failingEnv "tok" 0 1 none emptyWorld
      = (fetchTasks failingEnv "tok" none
          (tasksPhaseStart failingEnv "tok" 0 1 none emptyWorld)).1 ∧
    ∃ new : List Event,
      (processAccount failingEnv "tok" 0 1 none emptyWorld).trace = emptyWorld.trace ++ new ∧
      (∀ e ∈ new, IsFetchPhaseEvent e) ∧
      enteredTasks new = [] ∧
      ∀ verb config, Event.request verb statsUrl config ∉ new :=
  processAccount_stops_on_fetch_failure failingEnv "tok" 0 1 none emptyWorld (Or.inl rfl)

/-! ## `runCycle`: properties -/

theorem accountCalls_append (l₁ l₂ : List Event) :
    accountCalls (l₁ ++ l₂) = accountCalls l₁ ++ accountCalls l₂ := by
  simp [accountCalls, List.filterMap_append]

theorem accountCalls_eq_nil (new : List Event) (h : ∀ e ∈ new, e.accountCall = none) :
    accountCalls new = [] := by
  induction new with
  | nil => rfl
  | cons e l ih =>
    have he := h e (List.mem_cons_self _ _)
    have hl := ih (fun x hx => h x (List.mem_cons_of_mem _ hx))
    simpa [accountCalls, he] using hl

theorem retryEvent_accountCall (url : String) (e : Event) (h : IsRetryEvent url e) :
    e.accountCall = none := by
  rcases h with ⟨v, c, rfl⟩ | ⟨ms, rfl⟩ <;> rfl

theorem requestWithRetry_noAccount (env : Env) (method url : String)
    (config : AxiosConfig) (retries : Nat) (b : JsNum) (w : World) :
    OnlyEvents (fun e => e.accountCall = none) w
      (requestWithRetry env method url config retries b w).1 :=
  (requestWithRetry_onlyEvents env method url config retries b w).mono
    (retryEvent_accountCall url)

theorem completeTask_noAccount (env : Env) (token : String) (task : Task)
    (proxy : Option String) (w : World) :
    OnlyEvents (fun e => e.accountCall = none) w (completeTask env token task proxy w).1 := by
  have h0 : OnlyEvents (fun e => e.accountCall = none) w
      (w.emit (.enterCompleteTask task)) := OnlyEvents.emit w _ rfl
  unfold completeTask
  simp only
  split
  · exact h0
  · split
    · exact h0
    · rename_i method url _
      have h1 := requestWithRetry_noAccount env method url
        (getAxiosConfig proxy (some token) true) 3 2000 (w.emit (.enterCompleteTask task))
      cases hres : requestWithRetry env method url (getAxiosConfig proxy (some token) true)
          3 2000 (w.emit (.enterCompleteTask task)) with
      | mk w1 response =>
        rw [hres] at h1
        simp only
        cases verdict task response <;> exact h0.trans h1

theorem taskLoop_noAccount (env : Env) (token : String) (proxy : Option String) :
    ∀ (tasks : List Task) (c s : Nat) (w : World),
      OnlyEvents (fun e => e.accountCall = none) w
        (taskLoop env token proxy tasks c s w).1 := by
  intro tasks
  induction tasks with
  | nil => intro c s w; exact OnlyEvents.refl _ w
  | cons task rest ih =>
    intro c s w
    rw [taskLoop_cons]
    simp only
    have hstep : OnlyEvents (fun e => e.accountCall = none) w
        (taskStep env token proxy task c s w).1 := by
      rw [taskStep_world]
      split
      · exact completeTask_noAccount env token task proxy w
      · exact OnlyEvents.refl _ w
    have hdelay : OnlyEvents (fun e => e.accountCall = none)
        (taskStep env token proxy task c s w).1
        (delay 2 (taskStep env token proxy task c s w).1) :=
      OnlyEvents.emit _ _ rfl
    exact hstep.trans (hdelay.trans (ih _ _ _))

theorem fetchStatistics_world (env : Env) (token : String) (proxy : Option String)
    (w : World) :
    (fetchStatistics env token proxy w).1
      = (requestWithRetry env "get" statsUrl (getAxiosConfig proxy (some token) true)
          3 2000 w).1 := by
  unfold fetchStatistics
  cases hr : requestWithRetry env "get" statsUrl (getAxiosConfig proxy (some token) true)
      3 2000 w with
  | mk w1 r =>
    cases r with
    | none => rfl
    | some outcome =>
      cases outcome with
      | failure message status => rfl
      | success body =>
        simp only
        split
        · rfl
        · split
          · rfl
          · split
            · rfl
            · split <;> rfl

/-- The events `processAccount` adds: the marker of its being entered, then no
other such marker. -/
theorem processAccount_trace (env : Env) (token : String) (index total : Nat)
    (proxy : Option String) (w : World) :
    ∃ new : List Event,
      (processAccount env token index total proxy w).trace
        = w.trace ++ Event.enterProcessAccount token index total proxy :: new ∧
      accountCalls new = [] := by
  have key : OnlyEvents (fun e => e.accountCall = none)
      (w.emit (.enterProcessAccount token index total proxy))
      (processAccount env token index total proxy w) := by
    unfold processAccount
    simp only
    have h1 : OnlyEvents (fun e => e.accountCall = none)
        (w.emit (.enterProcessAccount token index total proxy))
        (fetchUserInfo env token proxy
          (w.emit (.enterProcessAccount token index total proxy))).1 := by
      rw [fetchUserInfo_world]
      exact requestWithRetry_noAccount _ _ _ _ _ _ _
    cases hu : fetchUserInfo env token proxy
        (w.emit (.enterProcessAccount token index total proxy)) with
    | mk w1 username =>
      rw [hu] at h1
      have h2 : OnlyEvents (fun e => e.accountCall = none) w1 (getPublicIP env proxy w1).1 := by
        rw [getPublicIP_world]
        exact requestWithRetry_noAccount _ _ _ _ _ _ _
      simp only
      cases hi : getPublicIP env proxy w1 with
      | mk w2 ip =>
        rw [hi] at h2
        have h3 : OnlyEvents (fun e => e.accountCall = none) w2
            (fetchTasks env token proxy w2).1 :=
          (fetchTasks_onlyEvents env token proxy w2).mono
            (fun e he => he.elim (retryEvent_accountCall _ e) (retryEvent_accountCall _ e))
        simp only
        cases hf : fetchTasks env token proxy w2 with
        | mk w3 result =>
          rw [hf] at h3
          cases result with
          | error message => exact h1.trans (h2.trans h3)
          | tasks tasks =>
            simp only
            rw [fetchStatistics_world]
            refine h1.trans (h2.trans (h3.trans (OnlyEvents.trans ?_
              (requestWithRetry_noAccount _ _ _ _ _ _ _))))
            split
            · exact OnlyEvents.refl _ w3
            · have hl := taskLoop_noAccount env token proxy tasks 0 0 w3
              cases hloop : taskLoop env token proxy tasks 0 0 w3 with
              | mk w' out =>
                rw [hloop] at hl
                exact hl.trans (OnlyEvents.emit _ _ rfl)
  obtain ⟨new, htrace, hnew⟩ := key
  exact ⟨new, by simp [htrace, World.emit], accountCalls_eq_nil new hnew⟩

theorem runCycleFrom_calls (env : Env) (config : Config) (tokens : List String) :
    ∀ (fuel i : Nat) (w : World), i + fuel = tokens.length →
      ∃ new : List Event,
        (runCycleFrom env config tokens fuel i w).trace = w.trace ++ new ∧
        accountCalls new = (List.range' i fuel).map
          (fun k => (tokens[k]?.getD "", k, tokens.length, proxyFor config k)) := by
  intro fuel
  induction fuel with
  | zero => intro i w _; exact ⟨[], by simp [runCycleFrom], by simp [accountCalls]⟩
  | succ f ih =>
    intro i w hi
    have hlt : i < tokens.length := by omega
    obtain ⟨pnew, hp, hpc⟩ := processAccount_trace env (tokens.get ⟨i, hlt⟩) i tokens.length
      (proxyFor config i) w
    obtain ⟨rest, hr, hrc⟩ := ih (i + 1)
      (delay 5 (processAccount env (tokens.get ⟨i, hlt⟩) i tokens.length
        (proxyFor config i) w)) (by omega)
    refine ⟨(Event.enterProcessAccount (tokens.get ⟨i, hlt⟩) i tokens.length
      (proxyFor config i) :: pnew) ++ [Event.wait ((5 : JsNum).scale 1000 1)] ++ rest, ?_, ?_⟩
    · simp only [runCycleFrom, hlt, dite_true]
      rw [hr]
      simp only [delay, World.emit, hp]
      simp
    · rw [accountCalls_append, accountCalls_append, hrc]
      have hhead : accountCalls (Event.enterProcessAccount (tokens.get ⟨i, hlt⟩) i
          tokens.length (proxyFor config i) :: pnew)
          = [(tokens.get ⟨i, hlt⟩, i, tokens.length, proxyFor config i)] := by
        have := hpc
        simp only [accountCalls] at this ⊢
        simp [List.filterMap_cons, Event.accountCall, this]
      have hwait : accountCalls [Event.wait ((5 : JsNum).scale 1000 1)] = [] := rfl
      rw [hhead, hwait, List.range'_succ]
      simp [List.getElem?_eq_getElem hlt]

theorem proxyFor_enabled (config : Config) (i : Nat) (he : config.globalUseProxy = true)
    (hP : 0 < config.globalProxies.length) :
    proxyFor config i
      = some (config.globalProxies.get
          ⟨i % config.globalProxies.length, Nat.mod_lt i hP⟩) := by
  simp [proxyFor, he, List.getElem?_eq_getElem (Nat.mod_lt i hP)]

theorem proxyFor_disabled (config : Config) (i : Nat) (hd : config.globalUseProxy = false) :
    proxyFor config i = none := by
  simp [proxyFor, hd]

theorem initializeConfig_enabled (useProxyAns : String) (proxies : List String)
    (h : (initializeConfig useProxyAns proxies).globalUseProxy = true) :
    0 < (initializeConfig useProxyAns proxies).globalProxies.length := by
  unfold initializeConfig at h ⊢
  split at h
  · split at h
    · simp at h
    · rename_i h1 h2
      simp only [h1, h2, if_true, if_false]
      omega
  · simp at h

/-- C10. `runCycle` enters `processAccount` once for each token, in order, with
the token, its index and the number of tokens; when proxy use is enabled with
at least one proxy, account `i` gets the proxy at index `i mod P` of the proxy
list, an index within the list; when proxy use is disabled it gets no proxy;
and the configuration `initializeConfig` builds enables proxy use only with
at least one proxy. -/
theorem runCycle_proxy_assignment (env : Env) (config : Config) (tokens : List String)
    (w : World) :
    (∃ new : List Event,
      (runCycle env config tokens w).trace = w.trace ++ new ∧
      (accountCalls new).length = tokens.length ∧
      ∀ (i : Nat) (hi : i < tokens.length),
        (config.globalUseProxy = true → ∀ hP : 0 < config.globalProxies.length,
          (accountCalls new)[i]? = some (tokens.get ⟨i, hi⟩, i, tokens.length,
            some (config.globalProxies.get
              ⟨i % config.globalProxies.length, Nat.mod_lt i hP⟩))) ∧
        (config.globalUseProxy = false →
          (accountCalls new)[i]? = some (tokens.get ⟨i, hi⟩, i, tokens.length, none))) ∧
    (∀ (useProxyAns : String) (proxies : List String),
      (initializeConfig useProxyAns proxies).globalUseProxy = true →
      0 < (initializeConfig useProxyAns proxies).globalProxies.length) := by
  refine ⟨?_, initializeConfig_enabled⟩
  have hcalls : ∃ new : List Event,
      (runCycle env config tokens w).trace = w.trace ++ new ∧
      accountCalls new = (List.range' 0 tokens.length).map
        (fun k => (tokens[k]?.getD "", k, tokens.length, proxyFor config k)) := by
    unfold runCycle
    split
    · rename_i h0
      exact ⟨[], by simp, by simp [accountCalls, h0]⟩
    · exact runCycleFrom_calls env config tokens tokens.length 0 w (by omega)
  obtain ⟨new, htrace, hcalls⟩ := hcalls
  refine ⟨new, htrace, by simp [hcalls], ?_⟩
  intro i hi
  have hget : (accountCalls new)[i]?
      = some (tokens.get ⟨i, hi⟩, i, tokens.length, proxyFor config i) := by
    rw [hcalls, List.getElem?_map, List.getElem?_range' _ _ hi]
    simp [List.getElem?_eq_getElem hi]
  refine ⟨?_, ?_⟩
  · intro he hP
    rw [hget, proxyFor_enabled config i he hP]
  · intro hd
    rw [hget, proxyFor_disabled config i hd]

/-- C10 at a concrete input: five tokens and three proxies; the account of
index 4 gets the proxy of index 1. -/
theorem runCycle_proxy_assignment_witness :
    ∃ new : List Event,
      (runCycle failingEnv sampleConfig ["a", "b", "c", "d", "e"] emptyWorld).trace
        = emptyWorld.trace ++ new ∧
      (accountCalls new).length = 5 ∧
      (accountCalls new)[4]? = some ("e", 4, 5, some "socks5://p1:1080") := by
  obtain ⟨new, htrace, hlen, h⟩ :=
    (runCycle_proxy_assignment failingEnv sampleConfig ["a", "b", "c", "d", "e"] emptyWorld).1
  exact ⟨new, htrace, hlen, (h 4 (by decide)).1 rfl (by decide)⟩

/-! ## `fetchStatistics`: properties -/

theorem lookupField_absent (key : String) (fields : List (String × JVal))
    (h : key ∉ fieldNames fields) : lookupField key fields = .undefined := by
  induction fields with
  | nil => rfl
  | cons kv rest ih =>
    obtain ⟨k, v⟩ := kv
    simp only [fieldNames, List.map_cons, List.mem_cons, not_or] at h
    have hk : ¬ k = key := fun hk => h.1 hk.symm
    simp only [lookupField, hk, if_false]
    exact ih h.2

theorem orElse_of_truthy (a b : JVal) (h : a.truthy = true) : a.orElse b = a := by
  simp [JVal.orElse, h]

theorem orElse_undefined (b : JVal) : JVal.undefined.orElse b = b := rfl

/-- The value of `fetchStatistics` when the request succeeds with a body whose
`response` is an object. -/
theorem fetchStatistics_of_object (env : Env) (token : String) (proxy : Option String)
    (w w1 : World) (body : JVal) (fields : List (String × JVal))
    (h : requestWithRetry env "get" statsUrl (getAxiosConfig proxy (some token) true)
      3 2000 w = (w1, some (.success body)))
    (hd : body.prop "response" = .obj fields) :
    fetchStatistics env token proxy w
      = (w1, .stats ((lookupField "total_credits" fields).orElse (.str "N/A"))
          ((lookupField "leaderboard_rank" fields).orElse (.str "N/A"))) := by
  cases body with
  | obj bodyFields =>
    simp only [JVal.prop] at hd
    simp [fetchStatistics, h, JVal.truthy, JVal.get, JVal.nullish, JVal.prop, hd]
  | _ => simp [JVal.prop] at hd

/-- C11, as stated, fails: for the statistics
`{total_credits: 0, leaderboard_rank: 7}` the field `total_credits` is present
with the value 0, and `totalCredits` is `'N/A'`, not that value. -/
theorem fetchStatistics_zero_credits :
    "total_credits" ∈ fieldNames zeroCreditsFields ∧
    lookupField "total_credits" zeroCreditsFields = .num 0 ∧
    (fetchStatistics (statsEnv zeroCreditsFields) "tok" none emptyWorld).2
      = .stats (.str "N/A") (.num 7) ∧
    JVal.str "N/A" ≠ .num 0 := by
  refine ⟨by decide, rfl, rfl, ?_⟩
  intro h
  cases h

/-- C11, amended. When the statistics request succeeds with a body whose
`response` is an object, `fetchStatistics` returns a result that is not an
error, in which `totalCredits` is the `total_credits` value of the object when
that value is truthy and `'N/A'` when the object has no such field, and
`leaderboardRank` is the `leaderboard_rank` value when that value is truthy and
`'N/A'` when the object has no such field. -/
theorem fetchStatistics_defaults (env : Env) (token : String) (proxy : Option String)
    (w w1 : World) (body : JVal) (fields : List (String × JVal))
    (h : requestWithRetry env "get" statsUrl (getAxiosConfig proxy (some token) true)
      3 2000 w = (w1, some (.success body)))
    (hd : body.prop "response" = .obj fields) :
    ∃ totalCredits leaderboardRank : JVal,
      fetchStatistics env token proxy w = (w1, .stats totalCredits leaderboardRank) ∧
      ((lookupField "total_credits" fields).truthy = true →
        totalCredits = lookupField "total_credits" fields) ∧
      ("total_credits" ∉ fieldNames fields → totalCredits = .str "N/A") ∧
      ((lookupField "leaderboard_rank" fields).truthy = true →
        leaderboardRank = lookupField "leaderboard_rank" fields) ∧
      ("leaderboard_rank" ∉ fieldNames fields → leaderboardRank = .str "N/A") := by
  refine ⟨_, _, fetchStatistics_of_object env token proxy w w1 body fields h hd,
    fun ht => orElse_of_truthy _ _ ht, ?_, fun ht => orElse_of_truthy _ _ ht, ?_⟩
  · intro habs
    rw [lookupField_absent _ _ habs, orElse_undefined]
  · intro habs
    rw [lookupField_absent _ _ habs, orElse_undefined]

/-- C11, amended, at a concrete input: statistics with 120 credits and no
`leaderboard_rank`. -/
theorem fetchStatistics_defaults_witness :
    ∃ totalCredits leaderboardRank : JVal,
      fetchStatistics (statsEnv noRankFields) "tok" none emptyWorld
        = (emptyWorld.emit (.request "get" statsUrl (getAxiosConfig none (some "tok") true)),
            .stats totalCredits leaderboardRank) ∧
      ((lookupField "total_credits" noRankFields).truthy = true →
        totalCredits = lookupField "total_credits" noRankFields) ∧
      ("total_credits" ∉ fieldNames noRankFields → totalCredits = .str "N/A") ∧
      ((lookupField "leaderboard_rank" noRankFields).truthy = true →
        leaderboardRank = lookupField "leaderboard_rank" noRankFields) ∧
      ("leaderboard_rank" ∉ fieldNames noRankFields → leaderboardRank = .str "N/A") :=
  fetchStatistics_defaults (statsEnv noRankFields) "tok" none emptyWorld _
    (statsBody noRankFields) noRankFields rfl rfl

/-- The scenario of a body without `leaderboard_rank`: the result is
`{totalCredits: 120, leaderboardRank: 'N/A'}`, not an error. -/
theorem fetchStatistics_missing_rank :
    (fetchStatistics (statsEnv noRankFields) "tok" none emptyWorld).2
      = .stats (.num 120) (.str "N/A") := by
  rfl

end Vibe
